import Mathlib

/-!
CNF construction engine of the SMT2-solver repository.

A shallow embedding of `src/code/main.c` and `src/code/add_conditions.c`.

* `unsigned` values are natural numbers; every `unsigned` operation that can
  wrap is reduced modulo `2^32`.
* `int` values are integers; a conversion from `unsigned` to `int` keeps the
  32-bit pattern (two's complement), as does a negation.
* The linked list of clauses is a `List Clause`, the linked list of literals a
  `List Int`; a `Clause*` is the position of the clause in the formula.
* `error` prints a message and exits: the embedding returns `Except.error`.
-/

namespace SMT2

/-! ## Machine integers -/

/-- Conversion of an `unsigned` value to `int`, keeping the bit pattern. -/
def to_int (n : Nat) : Int :=
  if n % 4294967296 < 2147483648 then ((n % 4294967296 : Nat) : Int)
  else ((n % 4294967296 : Nat) : Int) - 4294967296

/-- Conversion of an `int` value to `unsigned`. -/
def to_unsigned (i : Int) : Nat := (i % 4294967296).toNat

/-- Negation of an `int`, kept in 32 bits. -/
def neg_int (i : Int) : Int := to_int (to_unsigned (-i))

/-! ## Errors -/

/-- The ways a run can stop: an `assert` that fails, or a call of `error`. -/
inductive Error where
  | assertion
  | invalid_region
  | invalid_product
  | internal
  | indices_too_high
  | reflexive
  | regions_not_positive
  | products_not_positive
  deriving DecidableEq, Repr

/-- The line `error` writes to the error stream; a failed `assert` stops the
run without a call of `error`. -/
def Error.message : Error → Option String
  | .assertion => none
  | .invalid_region => some "Invalid region used."
  | .invalid_product => some "Invalid product used."
  | .internal => some "Internal error.\n"
  | .indices_too_high => some "Neighbour indices are too high.\n"
  | .reflexive => some "Reflexive neighbours are not allowed.\n"
  | .regions_not_positive => some "The number of regions has to be positive.\n"
  | .products_not_positive => some "The number of products has to be positive.\n"

/-! ## Literals, clauses and formulas -/

/-- The value of `MAIN_PRODUCT` in `cnf.h`. -/
def MAIN_PRODUCT : Bool := true

/-- The value of `SIDE_PRODUCT` in `cnf.h`. -/
def SIDE_PRODUCT : Bool := false

/-- A `struct Clause`: its literals (the `var` fields, first to last) and the
dimensions copied from the formula. -/
structure Clause where
  literals : List Int
  num_of_regions : Nat
  num_of_products : Nat
  deriving DecidableEq, Repr

/-- A `struct CNF`: its clauses (first to last), the clause counter and the
dimensions. -/
structure CNF where
  clauses : List Clause
  num_of_clauses : Nat
  num_of_regions : Nat
  num_of_products : Nat
  deriving DecidableEq, Repr

/-- The function `add_clause_to_formula`: links the clause after the last one,
copies the dimensions into it and increments the counter. -/
def add_clause_to_formula (clause : Clause) (formula : CNF) : CNF :=
  { formula with
    clauses := formula.clauses ++
      [{ clause with num_of_regions := formula.num_of_regions,
                     num_of_products := formula.num_of_products }],
    num_of_clauses := (formula.num_of_clauses + 1) % 4294967296 }

/-- The function `create_new_clause`: the formula with a fresh empty clause
added, and the position of that clause. -/
def create_new_clause (formula : CNF) : CNF × Nat :=
  (add_clause_to_formula ⟨[], 0, 0⟩ formula, formula.clauses.length)

/-- The local `lit_num` of `add_literal_to_clause` before the sign is applied:
the variable number. -/
def variable_number (num_of_regions num_of_products : Nat) (is_main_product : Bool)
    (region product : Nat) : Int :=
  let lit_num : Int := to_int ((num_of_products * region + product + 1) % 4294967296)
  if !is_main_product then
    to_int ((to_unsigned lit_num + (num_of_products * num_of_regions) % 4294967296) % 4294967296)
  else lit_num

/-- The value stored in `new_literal->var` by `add_literal_to_clause`. -/
def literal_value (num_of_regions num_of_products : Nat) (is_positive is_main_product : Bool)
    (region product : Nat) : Int :=
  let lit_num := variable_number num_of_regions num_of_products is_main_product region product
  if !is_positive then neg_int lit_num else lit_num

/-- The function `add_literal_to_clause` on the clause itself. -/
def add_literal_to_clause (clause : Clause) (is_positive is_main_product : Bool)
    (region product : Nat) : Except Error Clause :=
  let num_of_regions := clause.num_of_regions
  let num_of_products := clause.num_of_products
  if region ≥ num_of_regions then .error .invalid_region
  else if product ≥ num_of_products then .error .invalid_product
  else
    .ok { clause with
          literals := clause.literals ++
            [literal_value num_of_regions num_of_products is_positive is_main_product
              region product] }

/-- A call `add_literal_to_clause(cl, ...)` where `cl` is the clause at position
`cl` of the formula; a position with no clause is the null pointer of the
source's `assert(clause != NULL)`. -/
def add_literal (formula : CNF) (cl : Nat) (is_positive is_main_product : Bool)
    (region product : Nat) : Except Error CNF :=
  match formula.clauses[cl]? with
  | none => .error .assertion
  | some clause =>
    match add_literal_to_clause clause is_positive is_main_product region product with
    | .error e => .error e
    | .ok clause1 => .ok { formula with clauses := formula.clauses.set cl clause1 }

/-- The function `get_num_of_variables`. -/
def get_num_of_variables (formula : CNF) : Nat :=
  (2 * formula.num_of_products * formula.num_of_regions) % 4294967296

/-- The function `get_num_of_clauses`. -/
def get_num_of_clauses (formula : CNF) : Nat := formula.num_of_clauses

/-- A loop `for (unsigned i = lo; i < hi; ++i) body`, stopping at the first error. -/
def for_loop {σ : Type} (lo hi : Nat) (body : Nat → σ → Except Error σ) (s : σ) :
    Except Error σ :=
  (List.range' lo (hi - lo)).foldlM (fun s i => body i s) s

/-! ## Neighbour lists -/

/-- A `struct NeighbourLists`: `size` lists of neighbour indices; a
`struct NeighbourList` is the list of its `data`, its `size` the length. -/
structure NeighbourLists where
  size : Nat
  data : List (List Nat)
  deriving DecidableEq, Repr

/-- The function `add_neighbour`; the reallocation is taken to succeed. -/
def add_neighbour (lists : NeighbourLists) (fst snd : Nat) : Except Error NeighbourLists :=
  if lists.size = 0 then .error .internal
  else if fst ≥ lists.size ∨ snd ≥ lists.size then .error .indices_too_high
  else if fst = snd then .error .reflexive
  else if (lists.data.getD fst []).elem snd then .ok lists
  else .ok { lists with data := lists.data.set fst (lists.data.getD fst [] ++ [snd]) }

/-- The function `are_neighbours`. -/
def are_neighbours (lists : NeighbourLists) (fst snd : Nat) : Except Error Bool :=
  if lists.size = 0 then .error .internal
  else if fst ≥ lists.size ∨ snd ≥ lists.size then .ok false
  else .ok ((lists.data.getD fst []).elem snd)

/-! ## Constraint generators (`add_conditions.c`) -/

/-- The function `all_regions_min_one_main_product`. -/
def all_regions_min_one_main_product (formula : CNF) (num_of_regions num_of_products : Nat) :
    Except Error CNF :=
  if num_of_regions = 0 then .error .assertion
  else
    for_loop 0 num_of_regions (fun k formula =>
      let (formula, cl) := create_new_clause formula
      for_loop 0 num_of_products (fun p formula =>
        add_literal formula cl true MAIN_PRODUCT k p) formula) formula

/-- The function `all_regions_max_one_main_product`. -/
def all_regions_max_one_main_product (formula : CNF) (num_of_regions num_of_products : Nat) :
    Except Error CNF :=
  if num_of_regions = 0 then .error .assertion
  else
    for_loop 0 num_of_regions (fun k formula =>
      for_loop 0 num_of_products (fun p_1 formula =>
        for_loop 0 num_of_products (fun p_2 formula =>
          if p_1 ≥ p_2 then .ok formula
          else
            let (formula, cl) := create_new_clause formula
            (add_literal formula cl false MAIN_PRODUCT k p_1).bind fun formula =>
              add_literal formula cl false MAIN_PRODUCT k p_2) formula) formula) formula

/-- The function `all_regions_max_one_side_product`. -/
def all_regions_max_one_side_product (formula : CNF) (num_of_regions num_of_products : Nat) :
    Except Error CNF :=
  if num_of_regions = 0 then .error .assertion
  else
    for_loop 0 num_of_regions (fun k formula =>
      for_loop 0 num_of_products (fun p_1 formula =>
        for_loop 0 num_of_products (fun p_2 formula =>
          if p_1 ≥ p_2 then .ok formula
          else
            let (formula, cl) := create_new_clause formula
            (add_literal formula cl false SIDE_PRODUCT k p_1).bind fun formula =>
              add_literal formula cl false SIDE_PRODUCT k p_2) formula) formula) formula

/-- The function `main_side_products_different`. -/
def main_side_products_different (formula : CNF) (num_of_regions num_of_products : Nat) :
    Except Error CNF :=
  if num_of_regions = 0 then .error .assertion
  else
    for_loop 0 num_of_regions (fun k formula =>
      for_loop 0 num_of_products (fun p formula =>
        let (formula, cl) := create_new_clause formula
        (add_literal formula cl false SIDE_PRODUCT k p).bind fun formula =>
          add_literal formula cl false MAIN_PRODUCT k p) formula) formula

/-- The function `neighbour_regions_different_main_products`. -/
def neighbour_regions_different_main_products (formula : CNF)
    (num_of_regions num_of_products : Nat) (neighbours : NeighbourLists) : Except Error CNF :=
  if num_of_regions = 0 then .error .assertion
  else
    for_loop 0 num_of_regions (fun k_1 formula =>
      for_loop 0 num_of_regions (fun k_2 formula =>
        for_loop 0 num_of_products (fun p formula =>
          if k_1 ≥ k_2 then .ok formula
          else
            (are_neighbours neighbours k_1 k_2).bind fun adjacent =>
              if adjacent then
                let (formula, cl) := create_new_clause formula
                (add_literal formula cl false MAIN_PRODUCT k_1 p).bind fun formula =>
                  add_literal formula cl false MAIN_PRODUCT k_2 p
              else .ok formula) formula) formula) formula

/-- The function `all_products_at_least_once_main_products`. -/
def all_products_at_least_once_main_products (formula : CNF)
    (num_of_regions num_of_products : Nat) : Except Error CNF :=
  if num_of_regions = 0 then .error .assertion
  else
    for_loop 0 num_of_products (fun p formula =>
      let (formula, cl) := create_new_clause formula
      for_loop 0 num_of_regions (fun k formula =>
        add_literal formula cl true MAIN_PRODUCT k p) formula) formula

/-- The function `no_side_product_in_main_region`. -/
def no_side_product_in_main_region (formula : CNF) (num_of_regions num_of_products : Nat) :
    Except Error CNF :=
  if num_of_regions = 0 then .error .assertion
  else
    for_loop 0 num_of_products (fun p formula =>
      let (formula, cl) := create_new_clause formula
      add_literal formula cl false SIDE_PRODUCT 0 p) formula

/-- The function `main_region_main_product_as_side_product_elsewhere`: both
literals are added inside the loop over the regions `1 .. num_of_regions - 1`. -/
def main_region_main_product_as_side_product_elsewhere (formula : CNF)
    (num_of_regions num_of_products : Nat) : Except Error CNF :=
  if num_of_regions = 0 then .error .assertion
  else
    for_loop 0 num_of_products (fun p formula =>
      let (formula, cl) := create_new_clause formula
      for_loop 1 num_of_regions (fun k formula =>
        (add_literal formula cl false MAIN_PRODUCT 0 p).bind fun formula =>
          add_literal formula cl true SIDE_PRODUCT k p) formula) formula

/-! ## The driver (`main`, after the header has been read) -/

/-- The neighbour lists `main` starts from: `num_of_regions` empty lists. -/
def empty_neighbours (num_of_regions : Nat) : NeighbourLists :=
  { size := num_of_regions, data := List.replicate num_of_regions [] }

/-- The reading loop of `main`: every input pair is inserted in both directions. -/
def read_neighbours (neighbours : NeighbourLists) : List (Nat × Nat) → Except Error NeighbourLists
  | [] => .ok neighbours
  | (fst, snd) :: rest =>
    (add_neighbour neighbours fst snd).bind fun neighbours =>
      (add_neighbour neighbours snd fst).bind fun neighbours =>
        read_neighbours neighbours rest

/-- The formula `main` starts from. -/
def empty_formula (num_of_regions num_of_products : Nat) : CNF :=
  { clauses := [], num_of_clauses := 0,
    num_of_regions := num_of_regions, num_of_products := num_of_products }

/-- The eight generator calls of `main`, in its order. -/
def construct_clauses (f : CNF) (num_of_regions num_of_products : Nat)
    (neighbours : NeighbourLists) : Except Error CNF :=
  (all_regions_min_one_main_product f num_of_regions num_of_products).bind fun f =>
  (all_regions_max_one_main_product f num_of_regions num_of_products).bind fun f =>
  (all_regions_max_one_side_product f num_of_regions num_of_products).bind fun f =>
  (main_side_products_different f num_of_regions num_of_products).bind fun f =>
  (neighbour_regions_different_main_products f num_of_regions num_of_products neighbours).bind
    fun f =>
  (all_products_at_least_once_main_products f num_of_regions num_of_products).bind fun f =>
  (no_side_product_in_main_region f num_of_regions num_of_products).bind fun f =>
  main_region_main_product_as_side_product_elsewhere f num_of_regions num_of_products

/-- The eight generator calls of `main` as functions of the formula, in the
order of `main`. -/
def generator_calls (num_of_regions num_of_products : Nat) (neighbours : NeighbourLists) :
    List (CNF → Except Error CNF) :=
  [fun f => all_regions_min_one_main_product f num_of_regions num_of_products,
   fun f => all_regions_max_one_main_product f num_of_regions num_of_products,
   fun f => all_regions_max_one_side_product f num_of_regions num_of_products,
   fun f => main_side_products_different f num_of_regions num_of_products,
   fun f => neighbour_regions_different_main_products f num_of_regions num_of_products neighbours,
   fun f => all_products_at_least_once_main_products f num_of_regions num_of_products,
   fun f => no_side_product_in_main_region f num_of_regions num_of_products,
   fun f => main_region_main_product_as_side_product_elsewhere f num_of_regions num_of_products]

/-- The body of `main` from the header values and the input pairs to the formula
that is printed. -/
def main_formula (num_of_regions num_of_products : Nat) (pairs : List (Nat × Nat)) :
    Except Error CNF :=
  if num_of_regions = 0 then .error .regions_not_positive
  else if num_of_products = 0 then .error .products_not_positive
  else
    (read_neighbours (empty_neighbours num_of_regions) pairs).bind fun neighbours =>
      construct_clauses (empty_formula num_of_regions num_of_products)
        num_of_regions num_of_products neighbours

/-! ## Reading a formula -/

/-- A DIMACS literal under a truth assignment of the variable numbers: a positive
value asserts its variable, a negative value denies it. -/
def literal_holds (a : Nat → Bool) (l : Int) : Bool :=
  if 0 < l then a l.natAbs else if l < 0 then !a l.natAbs else false

/-- The number of the main-product variable `h(k,p)` of section 3 of the
specification. -/
def h_var (P k p : Nat) : Nat := P * k + p + 1

/-- The number of the side-product variable `v(k,p)` of section 3 of the
specification. -/
def v_var (K P k p : Nat) : Nat := P * k + p + 1 + K * P

/-! ## Describing what a generator appends -/

/-- The clause counter after `n` more calls of `add_clause_to_formula`. -/
def bump (count : Nat) : Nat → Nat
  | 0 => count
  | n + 1 => (bump count n + 1) % 4294967296

/-- The formula after clauses with the given literal sequences have been added
to it, each by `create_new_clause` and then filled. -/
def append_clauses (f : CNF) (cs : List (List Int)) : CNF :=
  { f with
    clauses := f.clauses ++
      cs.map (fun ls => (⟨ls, f.num_of_regions, f.num_of_products⟩ : Clause)),
    num_of_clauses := bump f.num_of_clauses cs.length }

/-- A clause, given by its literal sequence, is the disjunction of its literals. -/
def literals_hold (a : Nat → Bool) (ls : List Int) : Bool :=
  ls.any (literal_holds a)

/-- The triples `(k, p_1, p_2)` for which the three nested loops of the two
`max_one` generators reach the clause creation, in the order of the loops. -/
def pair_triples (K P : Nat) : List (Nat × Nat × Nat) :=
  (List.range K).flatMap fun k =>
    (List.range P).flatMap fun p_1 =>
      (List.range P).flatMap fun p_2 =>
        if p_1 ≥ p_2 then [] else [(k, p_1, p_2)]

/-- Lexicographic order on triples. -/
def lex_lt (s t : Nat × Nat × Nat) : Prop :=
  s.1 < t.1 ∨ (s.1 = t.1 ∧ (s.2.1 < t.2.1 ∨ (s.2.1 = t.2.1 ∧ s.2.2 < t.2.2)))

/-- The triples `(k_1, k_2, p)` for which the three nested loops of
`neighbour_regions_different_main_products` reach the clause creation, in the
order of the loops. -/
def neighbour_triples (K P : Nat) (neighbours : NeighbourLists) : List (Nat × Nat × Nat) :=
  (List.range K).flatMap fun k_1 =>
    (List.range K).flatMap fun k_2 =>
      (List.range P).flatMap fun p =>
        if k_1 ≥ k_2 then []
        else
          match are_neighbours neighbours k_1 k_2 with
          | .ok true => [(k_1, k_2, p)]
          | _ => []

/-- The shape of the neighbour lists kept by `main`: one list per region, no
index twice in a list. -/
def NeighbourLists.well_formed (lists : NeighbourLists) : Prop :=
  lists.data.length = lists.size ∧ ∀ l ∈ lists.data, l.Nodup

/-! ## Printing -/

/-- The function `print_formula`: the text written to the output stream, the
header by `"p cnf %u %u\n"`, each literal by `"%d "`, each clause end by
`"0\n"`. -/
def print_formula (formula : CNF) : String :=
  let out := "p cnf " ++ toString (get_num_of_variables formula) ++ " "
    ++ toString (get_num_of_clauses formula) ++ "\n"
  formula.clauses.foldl (fun out next_cl =>
    (next_cl.literals.foldl (fun out var => out ++ toString var ++ " ") out) ++ "0\n") out

/-- The pieces of a text written one after the other. -/
def concat_all : List String → String
  | [] => ""
  | piece :: rest => piece ++ concat_all rest

/-- The line of one clause in DIMACS text: every literal followed by a space,
then `0` and the end of the line. -/
def clause_line (cl : Clause) : String :=
  concat_all (cl.literals.map fun var => toString var ++ " ") ++ "0\n"

/-! ## Building a formula by calls of the two primitives -/

/-- A call of `create_new_clause` or of `add_literal_to_clause` on the clause at
a position of the formula. -/
inductive Call where
  | new_clause
  | add_literal (cl : Nat) (is_positive is_main_product : Bool) (region product : Nat)
  deriving DecidableEq, Repr

/-- The formula after a sequence of calls, or the first error. -/
def run_calls (formula : CNF) : List Call → Except Error CNF
  | [] => .ok formula
  | .new_clause :: rest => run_calls (create_new_clause formula).1 rest
  | .add_literal cl is_positive is_main_product region product :: rest =>
    (add_literal formula cl is_positive is_main_product region product).bind fun formula =>
      run_calls formula rest

/-- The number of `create_new_clause` calls in a sequence of calls. -/
def count_new_clauses (calls : List Call) : Nat :=
  calls.countP fun c => c = Call.new_clause

end SMT2

namespace SMT2

/-! ## Machine integers: facts -/

theorem to_int_small (n : Nat) (h : n < 2147483648) : to_int n = (n : Int) := by
  unfold to_int
  have h1 : n % 4294967296 = n := Nat.mod_eq_of_lt (by omega)
  rw [h1, if_pos h]

theorem to_unsigned_small (n : Nat) (h : n < 4294967296) : to_unsigned (n : Int) = n := by
  unfold to_unsigned
  have h1 : ((n : Int) % 4294967296) = ((n % 4294967296 : Nat) : Int) := by norm_cast
  rw [h1, Nat.mod_eq_of_lt h, Int.toNat_ofNat]

theorem neg_int_small (n : Nat) (h : n < 2147483648) : neg_int (n : Int) = -(n : Int) := by
  unfold neg_int to_unsigned to_int
  rcases Nat.eq_zero_or_pos n with h0 | h0
  · subst h0; simp
  · have h1 : (-(n : Int)) % 4294967296 = ((4294967296 - n : Nat) : Int) := by
      rw [Int.emod_def]
      have : (-(n : Int)) / 4294967296 = -1 := by omega
      rw [this]; omega
    rw [h1, Int.toNat_ofNat]
    have h2 : (4294967296 - n) % 4294967296 = 4294967296 - n := Nat.mod_eq_of_lt (by omega)
    rw [h2, if_neg (by omega)]
    omega

/-- Without wrap-around the product index plus the region offset stays below `K * P`. -/
theorem index_le (K P k p : Nat) (hk : k < K) (hp : p < P) : P * k + p + 1 ≤ K * P := by
  have h1 : P * (k + 1) ≤ P * K := Nat.mul_le_mul_left P hk
  have h2 : P * (k + 1) = P * k + P := by ring
  have h3 : P * K = K * P := Nat.mul_comm P K
  omega

/-- When `2 * K * P` fits a positive `int`, the variable number is the one of
section 3 of the specification. -/
theorem variable_number_eq (K P : Nat) (m : Bool) (k p : Nat)
    (hb : 2 * K * P ≤ 2147483647) (hk : k < K) (hp : p < P) :
    variable_number K P m k p =
      if m then ((P * k + p + 1 : Nat) : Int) else ((P * k + p + 1 + K * P : Nat) : Int) := by
  have h1 := index_le K P k p hk hp
  have h2 : 2 * K * P = 2 * (K * P) := by ring
  have h3 : P * K = K * P := Nat.mul_comm P K
  have e1 : (P * k + p + 1) % 4294967296 = P * k + p + 1 := Nat.mod_eq_of_lt (by omega)
  have e2 : (P * K) % 4294967296 = K * P := by rw [h3]; exact Nat.mod_eq_of_lt (by omega)
  have e3 : (P * k + p + 1 + K * P) % 4294967296 = P * k + p + 1 + K * P :=
    Nat.mod_eq_of_lt (by omega)
  have e4 : to_int (P * k + p + 1) = ((P * k + p + 1 : Nat) : Int) :=
    to_int_small _ (by omega)
  have e5 : to_unsigned ((P * k + p + 1 : Nat) : Int) = P * k + p + 1 :=
    to_unsigned_small _ (by omega)
  have e6 : to_int (P * k + p + 1 + K * P) = ((P * k + p + 1 + K * P : Nat) : Int) :=
    to_int_small _ (by omega)
  unfold variable_number
  cases m
  · simp only [Bool.not_false, if_true, e1, e2, e4, e5, e3, e6]
    simp
  · simp only [Bool.not_true, e1, e4]
    simp

/-- A pair `(k, p)` with `p < P` is recovered from `P * k + p`. -/
theorem index_inj (P k1 p1 k2 p2 : Nat) (h1 : p1 < P) (h2 : p2 < P)
    (h : P * k1 + p1 = P * k2 + p2) : k1 = k2 ∧ p1 = p2 := by
  have hP : 0 < P := by omega
  have a1 : (P * k1 + p1) / P = k1 := by
    rw [Nat.mul_add_div hP, Nat.div_eq_of_lt h1]; rfl
  have a2 : (P * k2 + p2) / P = k2 := by
    rw [Nat.mul_add_div hP, Nat.div_eq_of_lt h2]; rfl
  have hk : k1 = k2 := by rw [← a1, ← a2, h]
  subst hk
  exact ⟨rfl, by omega⟩

/-! ## C1: the variable numbering -/

/-- C1, as stated, fails: for K = 2^31 regions and P = 2 products the offset
`K * P` of the side family wraps to 0, so the main-product and the side-product
variable of region 0 and product 0 both get the number 1; the numbering is not
injective for all positive K and P. -/
theorem variable_number_collision :
    ¬ (∀ (m1 m2 : Bool) (k1 p1 k2 p2 : Nat),
        k1 < 2147483648 → p1 < 2 → k2 < 2147483648 → p2 < 2 →
        variable_number 2147483648 2 m1 k1 p1 = variable_number 2147483648 2 m2 k2 p2 →
        m1 = m2 ∧ k1 = k2 ∧ p1 = p2) := by
  intro h
  have h1 := h true false 0 0 0 0 (by decide) (by decide) (by decide) (by decide) (by decide)
  exact absurd h1.1 (by decide)

/-- C1, amended: for K > 0 and P > 0 with 2*K*P <= 2^31 - 1, the variable number
computed by `add_literal_to_clause` is P*k+p+1 for the main family and
P*k+p+1+K*P for the side family, lies in [1, 2*K*P], is the same for two
triples (family, k, p) of the domain only when the triples are equal, and every
integer of [1, 2*K*P] is the number of exactly one triple. -/
theorem variable_number_bijection (K P : Nat) (_hK : 0 < K) (hP : 0 < P)
    (hb : 2 * K * P ≤ 2147483647) :
    (∀ k p, k < K → p < P →
      variable_number K P MAIN_PRODUCT k p = ((P * k + p + 1 : Nat) : Int) ∧
      variable_number K P SIDE_PRODUCT k p = ((P * k + p + 1 + K * P : Nat) : Int)) ∧
    (∀ m k p, k < K → p < P →
      1 ≤ variable_number K P m k p ∧ variable_number K P m k p ≤ ((2 * K * P : Nat) : Int)) ∧
    (∀ m1 k1 p1 m2 k2 p2, k1 < K → p1 < P → k2 < K → p2 < P →
      variable_number K P m1 k1 p1 = variable_number K P m2 k2 p2 →
      m1 = m2 ∧ k1 = k2 ∧ p1 = p2) ∧
    (∀ n : Int, 1 ≤ n → n ≤ ((2 * K * P : Nat) : Int) →
      ∃! t : Bool × Nat × Nat,
        t.2.1 < K ∧ t.2.2 < P ∧ variable_number K P t.1 t.2.1 t.2.2 = n) := by
  have h2 : 2 * K * P = 2 * (K * P) := by ring
  have inj : ∀ m1 k1 p1 m2 k2 p2, k1 < K → p1 < P → k2 < K → p2 < P →
      variable_number K P m1 k1 p1 = variable_number K P m2 k2 p2 →
      m1 = m2 ∧ k1 = k2 ∧ p1 = p2 := by
    intro m1 k1 p1 m2 k2 p2 hk1 hp1 hk2 hp2 h
    rw [variable_number_eq K P m1 k1 p1 hb hk1 hp1,
      variable_number_eq K P m2 k2 p2 hb hk2 hp2] at h
    have b1 := index_le K P k1 p1 hk1 hp1
    have b2 := index_le K P k2 p2 hk2 hp2
    cases m1 <;> cases m2 <;> simp only [if_true, Bool.false_eq_true, if_false] at h
    · have h3 : P * k1 + p1 = P * k2 + p2 := by omega
      exact ⟨rfl, index_inj P k1 p1 k2 p2 hp1 hp2 h3⟩
    · omega
    · omega
    · have h3 : P * k1 + p1 = P * k2 + p2 := by omega
      exact ⟨rfl, index_inj P k1 p1 k2 p2 hp1 hp2 h3⟩
  refine ⟨?_, ?_, inj, ?_⟩
  · intro k p hk hp
    exact ⟨by rw [variable_number_eq K P MAIN_PRODUCT k p hb hk hp]; rfl,
      by rw [variable_number_eq K P SIDE_PRODUCT k p hb hk hp]; rfl⟩
  · intro m k p hk hp
    rw [variable_number_eq K P m k p hb hk hp]
    have b1 := index_le K P k p hk hp
    cases m <;> simp only [if_true, Bool.false_eq_true, if_false] <;> omega
  · intro n hn1 hn2
    obtain ⟨j, rfl⟩ : ∃ j : Nat, n = ((j + 1 : Nat) : Int) := ⟨(n - 1).toNat, by omega⟩
    have hj : j < 2 * (K * P) := by omega
    have key : ∀ i, i < K * P → i / P < K ∧ i % P < P ∧ P * (i / P) + i % P = i := by
      intro i hi
      refine ⟨(Nat.div_lt_iff_lt_mul hP).2 hi, Nat.mod_lt _ hP, Nat.div_add_mod i P⟩
    by_cases hlt : j < K * P
    · obtain ⟨c1, c2, c3⟩ := key j hlt
      have hv : variable_number K P true (j / P) (j % P) = ((j + 1 : Nat) : Int) := by
        rw [variable_number_eq K P true _ _ hb c1 c2, if_pos rfl, c3]
      refine ⟨(true, j / P, j % P), ⟨c1, c2, hv⟩, ?_⟩
      rintro ⟨m, k, p⟩ ⟨d1, d2, d3⟩
      obtain ⟨e1, e2, e3⟩ := inj m k p true (j / P) (j % P) d1 d2 c1 c2 (d3.trans hv.symm)
      subst e1 e2 e3
      rfl
    · obtain ⟨c1, c2, c3⟩ := key (j - K * P) (by omega)
      have hv : variable_number K P false ((j - K * P) / P) ((j - K * P) % P)
          = ((j + 1 : Nat) : Int) := by
        rw [variable_number_eq K P false _ _ hb c1 c2, if_neg (by decide), c3]
        congr 1; omega
      refine ⟨(false, (j - K * P) / P, (j - K * P) % P), ⟨c1, c2, hv⟩, ?_⟩
      rintro ⟨m, k, p⟩ ⟨d1, d2, d3⟩
      obtain ⟨e1, e2, e3⟩ := inj m k p false _ _ d1 d2 c1 c2 (d3.trans hv.symm)
      subst e1 e2 e3
      rfl

/-- The amended C1 at K = 3 regions and P = 2 products. -/
theorem variable_number_bijection_witness :
    (∀ k p, k < 3 → p < 2 →
      variable_number 3 2 MAIN_PRODUCT k p = ((2 * k + p + 1 : Nat) : Int) ∧
      variable_number 3 2 SIDE_PRODUCT k p = ((2 * k + p + 1 + 3 * 2 : Nat) : Int)) ∧
    (∀ m k p, k < 3 → p < 2 →
      1 ≤ variable_number 3 2 m k p ∧ variable_number 3 2 m k p ≤ ((2 * 3 * 2 : Nat) : Int)) ∧
    (∀ m1 k1 p1 m2 k2 p2, k1 < 3 → p1 < 2 → k2 < 3 → p2 < 2 →
      variable_number 3 2 m1 k1 p1 = variable_number 3 2 m2 k2 p2 →
      m1 = m2 ∧ k1 = k2 ∧ p1 = p2) ∧
    (∀ n : Int, 1 ≤ n → n ≤ ((2 * 3 * 2 : Nat) : Int) →
      ∃! t : Bool × Nat × Nat,
        t.2.1 < 3 ∧ t.2.2 < 2 ∧ variable_number 3 2 t.1 t.2.1 t.2.2 = n) :=
  variable_number_bijection 3 2 (by decide) (by decide) (by decide)

/-! ## C2 and C3: `add_literal_to_clause` -/

/-- When `2 * K * P` fits a positive `int`, the stored value is the variable
number of the specification with its sign. -/
theorem literal_value_eq (K P : Nat) (pos m : Bool) (k p : Nat)
    (hb : 2 * K * P ≤ 2147483647) (hk : k < K) (hp : p < P) :
    literal_value K P pos m k p =
      if pos then (if m then ((P * k + p + 1 : Nat) : Int) else ((P * k + p + 1 + K * P : Nat) : Int))
      else -(if m then ((P * k + p + 1 : Nat) : Int) else ((P * k + p + 1 + K * P : Nat) : Int)) := by
  have b1 := index_le K P k p hk hp
  have h2 : 2 * K * P = 2 * (K * P) := by ring
  unfold literal_value
  rw [variable_number_eq K P m k p hb hk hp]
  cases pos <;> cases m <;> simp only [Bool.not_false, Bool.not_true, if_true, if_false,
    Bool.false_eq_true]
  · exact neg_int_small _ (by omega)
  · exact neg_int_small _ (by omega)

/-- C2, as stated, fails: in a clause configured with K = 2^31 and P = 2 the
side-product literal of region 0 and product 0 is stored as 1, not as
P*0+0+1+K*P = 2^32+1, because the offset K*P wraps to 0. -/
theorem add_literal_to_clause_wraps :
    add_literal_to_clause ⟨[], 2147483648, 2⟩ true SIDE_PRODUCT 0 0
      = .ok ⟨[1], 2147483648, 2⟩ ∧
    (1 : Int) ≠ ((2 * 0 + 0 + 1 + 2147483648 * 2 : Nat) : Int) := by
  constructor
  · rfl
  · decide

/-- C2, amended: for a clause configured with (K,P) where 2*K*P <= 2^31 - 1 and
for region < K and product < P, `add_literal_to_clause` appends exactly one
literal at the end of the clause and leaves the earlier literals and their order
unchanged; the appended value is P*region+product+1 for a main-product variable
and P*region+product+1+K*P for a side-product variable, negated exactly when
is_positive is false. In a formula only the clause addressed changes. -/
theorem add_literal_to_clause_appends (c : Clause) (K P : Nat)
    (hK : c.num_of_regions = K) (hP : c.num_of_products = P)
    (hb : 2 * K * P ≤ 2147483647) (is_positive is_main_product : Bool)
    (region product : Nat) (hr : region < K) (hp : product < P) :
    add_literal_to_clause c is_positive is_main_product region product
      = .ok { c with literals := c.literals ++
          [if is_positive then
             (if is_main_product then ((P * region + product + 1 : Nat) : Int)
              else ((P * region + product + 1 + K * P : Nat) : Int))
           else
             -(if is_main_product then ((P * region + product + 1 : Nat) : Int)
               else ((P * region + product + 1 + K * P : Nat) : Int))] } ∧
    ∀ (f : CNF) (cl : Nat), f.clauses[cl]? = some c →
      add_literal f cl is_positive is_main_product region product
        = .ok { f with clauses := f.clauses.set cl { c with literals := c.literals ++
          [if is_positive then
             (if is_main_product then ((P * region + product + 1 : Nat) : Int)
              else ((P * region + product + 1 + K * P : Nat) : Int))
           else
             -(if is_main_product then ((P * region + product + 1 : Nat) : Int)
               else ((P * region + product + 1 + K * P : Nat) : Int))] } } := by
  subst hK hP
  have h1 : add_literal_to_clause c is_positive is_main_product region product
      = .ok { c with literals := c.literals ++
          [literal_value c.num_of_regions c.num_of_products is_positive is_main_product
            region product] } := by
    unfold add_literal_to_clause
    simp only [ge_iff_le]
    rw [if_neg (by omega), if_neg (by omega)]
  rw [literal_value_eq _ _ _ _ _ _ hb hr hp] at h1
  refine ⟨h1, ?_⟩
  intro f cl hcl
  unfold add_literal
  rw [hcl]
  simp only [h1]

/-- The amended C2 on the clause `[1]` of a formula with K = 3 and P = 2: the
negative side-product literal of region 1 and product 0 is -9. -/
theorem add_literal_to_clause_appends_witness :
    add_literal_to_clause ⟨[1], 3, 2⟩ false SIDE_PRODUCT 1 0 = .ok ⟨[1, -9], 3, 2⟩ :=
  (add_literal_to_clause_appends ⟨[1], 3, 2⟩ 3 2 rfl rfl (by decide) false SIDE_PRODUCT 1 0
    (by decide) (by decide)).1

/-- C3: `add_literal_to_clause` fails with the region error ("Invalid region
used.") whenever region >= K, and with the product error ("Invalid product
used.") whenever region < K and product >= P, in particular for region = K and
for product = P; a failing call yields no clause and no formula, so the literals
of the clause are those from before the call. -/
theorem add_literal_to_clause_rejects (c : Clause) (is_positive is_main_product : Bool)
    (region product : Nat) :
    (c.num_of_regions ≤ region →
      add_literal_to_clause c is_positive is_main_product region product
        = .error .invalid_region) ∧
    (region < c.num_of_regions → c.num_of_products ≤ product →
      add_literal_to_clause c is_positive is_main_product region product
        = .error .invalid_product) ∧
    add_literal_to_clause c is_positive is_main_product c.num_of_regions product
      = .error .invalid_region ∧
    (region < c.num_of_regions →
      add_literal_to_clause c is_positive is_main_product region c.num_of_products
        = .error .invalid_product) ∧
    (∀ (f : CNF) (cl : Nat), f.clauses[cl]? = some c →
      (c.num_of_regions ≤ region →
        add_literal f cl is_positive is_main_product region product
          = .error .invalid_region) ∧
      (region < c.num_of_regions → c.num_of_products ≤ product →
        add_literal f cl is_positive is_main_product region product
          = .error .invalid_product)) ∧
    Error.message .invalid_region = some "Invalid region used." ∧
    Error.message .invalid_product = some "Invalid product used." := by
  have r1 : ∀ region product, c.num_of_regions ≤ region →
      add_literal_to_clause c is_positive is_main_product region product
        = .error .invalid_region := by
    intro region product h
    unfold add_literal_to_clause
    simp only [ge_iff_le]
    rw [if_pos h]
  have r2 : ∀ region product, region < c.num_of_regions → c.num_of_products ≤ product →
      add_literal_to_clause c is_positive is_main_product region product
        = .error .invalid_product := by
    intro region product h1 h2
    unfold add_literal_to_clause
    simp only [ge_iff_le]
    rw [if_neg (by omega), if_pos h2]
  refine ⟨r1 region product, r2 region product, r1 _ _ (Nat.le_refl _),
    fun h => r2 _ _ h (Nat.le_refl _), ?_, rfl, rfl⟩
  intro f cl hcl
  constructor
  · intro h
    unfold add_literal
    rw [hcl]
    simp only [r1 region product h]
  · intro h1 h2
    unfold add_literal
    rw [hcl]
    simp only [r2 region product h1 h2]

/-- C3 on a clause configured with K = 3 and P = 2: region 3 is rejected with
the region error, product 2 in region 1 with the product error. -/
theorem add_literal_to_clause_rejects_witness :
    add_literal_to_clause ⟨[1], 3, 2⟩ true MAIN_PRODUCT 3 0 = .error .invalid_region ∧
    add_literal_to_clause ⟨[1], 3, 2⟩ true MAIN_PRODUCT 1 2 = .error .invalid_product :=
  ⟨(add_literal_to_clause_rejects ⟨[1], 3, 2⟩ true MAIN_PRODUCT 3 0).1 (by decide),
   (add_literal_to_clause_rejects ⟨[1], 3, 2⟩ true MAIN_PRODUCT 1 2).2.1 (by decide) (by decide)⟩

/-! ## Loops that append -/

theorem bump_add (c m n : Nat) : bump (bump c m) n = bump c (m + n) := by
  induction n with
  | zero => rfl
  | succ n ih => show (bump (bump c m) n + 1) % 4294967296 = _; rw [ih]; rfl

theorem append_clauses_nil (f : CNF) : append_clauses f [] = f := by
  cases f; simp [append_clauses, bump]

/-- A loop whose body extends an accumulated list extends it by the pieces of
all its rounds, in order. -/
theorem for_loop_acc {σ α : Type} (S : List α → σ) (g : Nat → List α)
    (body : Nat → σ → Except Error σ) (lo hi : Nat)
    (h : ∀ i, lo ≤ i → i < hi → ∀ xs, body i (S xs) = .ok (S (xs ++ g i))) (xs : List α) :
    for_loop lo hi body (S xs) = .ok (S (xs ++ (List.range' lo (hi - lo)).flatMap g)) := by
  unfold for_loop
  generalize hn : hi - lo = n
  induction n generalizing lo xs with
  | zero => simp [pure, Except.pure]
  | succ n ih =>
    rw [List.range'_succ, List.foldlM_cons, h lo (Nat.le_refl _) (by omega) xs]
    show List.foldlM (fun s i => body i s) (S (xs ++ g lo)) (List.range' (lo + 1) n) = _
    rw [ih (lo + 1) (fun i h1 h2 => h i (by omega) h2) (xs ++ g lo) (by omega)]
    simp [List.flatMap_cons, List.append_assoc]

theorem list_get_last {α : Type} (l : List α) (c : α) : (l ++ [c])[l.length]? = some c := by
  simp

theorem list_set_last {α : Type} (l : List α) (c d : α) : (l ++ [c]).set l.length d = l ++ [d] := by
  simp

/-- The effect of `create_new_clause` after some clauses were appended. -/
theorem create_new_clause_append (f : CNF) (cs : List (List Int)) :
    create_new_clause (append_clauses f cs)
      = (append_clauses f (cs ++ [[]]), f.clauses.length + cs.length) := by
  simp [create_new_clause, add_clause_to_formula, append_clauses, bump]

/-- The effect of `add_literal_to_clause` on the clause created last. -/
theorem add_literal_last (f : CNF) (cs : List (List Int)) (ls : List Int)
    (pos m : Bool) (k p : Nat) (hk : k < f.num_of_regions) (hp : p < f.num_of_products) :
    add_literal (append_clauses f (cs ++ [ls])) (f.clauses.length + cs.length) pos m k p
      = .ok (append_clauses f
          (cs ++ [ls ++ [literal_value f.num_of_regions f.num_of_products pos m k p]])) := by
  have hc : (append_clauses f (cs ++ [ls])).clauses
      = (f.clauses ++ cs.map (fun ls => (⟨ls, f.num_of_regions, f.num_of_products⟩ : Clause)))
        ++ [⟨ls, f.num_of_regions, f.num_of_products⟩] := by
    simp [append_clauses]
  have hl : f.clauses.length + cs.length
      = (f.clauses ++ cs.map
          (fun ls => (⟨ls, f.num_of_regions, f.num_of_products⟩ : Clause))).length := by
    simp
  unfold add_literal
  rw [hc, hl, list_get_last]
  simp only [add_literal_to_clause, ge_iff_le]
  rw [if_neg (by omega), if_neg (by omega)]
  simp only [list_set_last]
  simp [append_clauses]

theorem flatMap_single {α β : Type} (l : List α) (f : α → β) :
    l.flatMap (fun x => [f x]) = l.map f := by
  induction l with
  | nil => rfl
  | cons x xs ih => simp [List.flatMap_cons, ih]

/-- A loop that adds one literal per round to the clause created last. -/
theorem fill_loop (f : CNF) (cs : List (List Int)) (ls : List Int) (lo hi : Nat)
    (pos m : Bool) (kf pf : Nat → Nat)
    (hk : ∀ i, lo ≤ i → i < hi → kf i < f.num_of_regions)
    (hp : ∀ i, lo ≤ i → i < hi → pf i < f.num_of_products) :
    for_loop lo hi (fun i formula =>
        add_literal formula (f.clauses.length + cs.length) pos m (kf i) (pf i))
      (append_clauses f (cs ++ [ls]))
    = .ok (append_clauses f (cs ++ [ls ++ (List.range' lo (hi - lo)).map fun i =>
        literal_value f.num_of_regions f.num_of_products pos m (kf i) (pf i)])) := by
  have h := for_loop_acc (fun ls => append_clauses f (cs ++ [ls]))
    (fun i => [literal_value f.num_of_regions f.num_of_products pos m (kf i) (pf i)])
    (fun i formula => add_literal formula (f.clauses.length + cs.length) pos m (kf i) (pf i))
    lo hi (fun i h1 h2 xs => add_literal_last f cs xs pos m (kf i) (pf i) (hk i h1 h2) (hp i h1 h2))
    ls
  rw [flatMap_single] at h
  exact h

/-- The clauses `all_regions_min_one_main_product` adds: for each region the
positive main-product literals of all products. -/
theorem min_one_main_run (f : CNF) (K P : Nat) (hK : 0 < K)
    (hfK : f.num_of_regions = K) (hfP : f.num_of_products = P) :
    all_regions_min_one_main_product f K P
      = .ok (append_clauses f ((List.range K).map fun k =>
          (List.range P).map fun p => literal_value K P true MAIN_PRODUCT k p)) := by
  subst hfK hfP
  unfold all_regions_min_one_main_product
  rw [if_neg (by omega)]
  have h := for_loop_acc (fun cs => append_clauses f cs)
    (fun k => [(List.range f.num_of_products).map fun p =>
      literal_value f.num_of_regions f.num_of_products true MAIN_PRODUCT k p])
    (fun k formula =>
      let (formula, cl) := create_new_clause formula
      for_loop 0 f.num_of_products (fun p formula =>
        add_literal formula cl true MAIN_PRODUCT k p) formula)
    0 f.num_of_regions
    (by
      intro k _ hk cs
      simp only [create_new_clause_append]
      have h2 := fill_loop f cs [] 0 f.num_of_products true MAIN_PRODUCT (fun _ => k) (fun p => p)
        (fun _ _ _ => hk) (fun _ _ h => h)
      simp only [List.nil_append, Nat.sub_zero, ← List.range_eq_range'] at h2
      exact h2)
    []
  rw [append_clauses_nil, flatMap_single] at h
  simpa [← List.range_eq_range'] using h

/-- A round that creates a clause and adds two literals to it. -/
theorem pair_step (f : CNF) (cs : List (List Int)) (pos1 m1 : Bool) (k1 p1 : Nat)
    (pos2 m2 : Bool) (k2 p2 : Nat)
    (hk1 : k1 < f.num_of_regions) (hp1 : p1 < f.num_of_products)
    (hk2 : k2 < f.num_of_regions) (hp2 : p2 < f.num_of_products) :
    (add_literal (append_clauses f (cs ++ [[]])) (f.clauses.length + cs.length) pos1 m1 k1 p1).bind
        (fun formula => add_literal formula (f.clauses.length + cs.length) pos2 m2 k2 p2)
      = .ok (append_clauses f (cs ++
          [[literal_value f.num_of_regions f.num_of_products pos1 m1 k1 p1,
            literal_value f.num_of_regions f.num_of_products pos2 m2 k2 p2]])) := by
  rw [add_literal_last f cs [] pos1 m1 k1 p1 hk1 hp1]
  show add_literal _ _ pos2 m2 k2 p2 = _
  rw [add_literal_last f cs _ pos2 m2 k2 p2 hk2 hp2]
  rfl

/-- The clauses `all_regions_max_one_main_product` adds. -/
theorem max_one_main_run (f : CNF) (K P : Nat) (hK : 0 < K)
    (hfK : f.num_of_regions = K) (hfP : f.num_of_products = P) :
    all_regions_max_one_main_product f K P
      = .ok (append_clauses f ((pair_triples K P).map fun t =>
          [literal_value K P false MAIN_PRODUCT t.1 t.2.1,
           literal_value K P false MAIN_PRODUCT t.1 t.2.2])) := by
  subst hfK hfP
  have key : ∀ cs, all_regions_max_one_main_product (append_clauses f cs) f.num_of_regions f.num_of_products
      = .ok (append_clauses f (cs ++
          (List.range' 0 (f.num_of_regions - 0)).flatMap fun k =>
            (List.range' 0 (f.num_of_products - 0)).flatMap fun p_1 =>
              (List.range' 0 (f.num_of_products - 0)).flatMap fun p_2 =>
                if p_1 ≥ p_2 then [] else
                  [[literal_value f.num_of_regions f.num_of_products false MAIN_PRODUCT k p_1,
                    literal_value f.num_of_regions f.num_of_products false MAIN_PRODUCT k
                      p_2]])) := by
    intro cs
    unfold all_regions_max_one_main_product
    rw [if_neg (by omega)]
    refine for_loop_acc (fun cs => append_clauses f cs) _ _ 0 f.num_of_regions ?_ cs
    intro k _ hk cs
    refine for_loop_acc (fun cs => append_clauses f cs) _ _ 0 f.num_of_products ?_ cs
    intro p_1 _ hp1 cs
    refine for_loop_acc (fun cs => append_clauses f cs) _ _ 0 f.num_of_products ?_ cs
    intro p_2 _ hp2 cs
    by_cases hc : p_1 ≥ p_2
    · simp only [if_pos hc, List.append_nil]
    · simp only [if_neg hc, create_new_clause_append]
      exact pair_step f cs false MAIN_PRODUCT k p_1 false MAIN_PRODUCT k p_2 hk hp1 hk hp2
  have h := key []
  rw [append_clauses_nil] at h
  rw [h]
  simp only [pair_triples, List.map_flatMap, Nat.sub_zero, ← List.range_eq_range',
    List.nil_append, apply_ite (List.map _), List.map_nil, List.map_cons]

/-- The clauses `all_regions_max_one_side_product` adds. -/
theorem max_one_side_run (f : CNF) (K P : Nat) (hK : 0 < K)
    (hfK : f.num_of_regions = K) (hfP : f.num_of_products = P) :
    all_regions_max_one_side_product f K P
      = .ok (append_clauses f ((pair_triples K P).map fun t =>
          [literal_value K P false SIDE_PRODUCT t.1 t.2.1,
           literal_value K P false SIDE_PRODUCT t.1 t.2.2])) := by
  subst hfK hfP
  have key : ∀ cs, all_regions_max_one_side_product (append_clauses f cs) f.num_of_regions f.num_of_products
      = .ok (append_clauses f (cs ++
          (List.range' 0 (f.num_of_regions - 0)).flatMap fun k =>
            (List.range' 0 (f.num_of_products - 0)).flatMap fun p_1 =>
              (List.range' 0 (f.num_of_products - 0)).flatMap fun p_2 =>
                if p_1 ≥ p_2 then [] else
                  [[literal_value f.num_of_regions f.num_of_products false SIDE_PRODUCT k p_1,
                    literal_value f.num_of_regions f.num_of_products false SIDE_PRODUCT k
                      p_2]])) := by
    intro cs
    unfold all_regions_max_one_side_product
    rw [if_neg (by omega)]
    refine for_loop_acc (fun cs => append_clauses f cs) _ _ 0 f.num_of_regions ?_ cs
    intro k _ hk cs
    refine for_loop_acc (fun cs => append_clauses f cs) _ _ 0 f.num_of_products ?_ cs
    intro p_1 _ hp1 cs
    refine for_loop_acc (fun cs => append_clauses f cs) _ _ 0 f.num_of_products ?_ cs
    intro p_2 _ hp2 cs
    by_cases hc : p_1 ≥ p_2
    · simp only [if_pos hc, List.append_nil]
    · simp only [if_neg hc, create_new_clause_append]
      exact pair_step f cs false SIDE_PRODUCT k p_1 false SIDE_PRODUCT k p_2 hk hp1 hk hp2
  have h := key []
  rw [append_clauses_nil] at h
  rw [h]
  simp only [pair_triples, List.map_flatMap, Nat.sub_zero, ← List.range_eq_range',
    List.nil_append, apply_ite (List.map _), List.map_nil, List.map_cons]

/-- The clauses `main_region_main_product_as_side_product_elsewhere` adds: for
each product one clause in which every region `k` from 1 on contributes the
negative main-product literal of region 0 and the positive side-product literal
of region `k`. -/
theorem elsewhere_run (f : CNF) (K P : Nat) (hK : 0 < K)
    (hfK : f.num_of_regions = K) (hfP : f.num_of_products = P) :
    main_region_main_product_as_side_product_elsewhere f K P
      = .ok (append_clauses f ((List.range P).map fun p =>
          (List.range' 1 (K - 1)).flatMap fun k =>
            [literal_value K P false MAIN_PRODUCT 0 p,
             literal_value K P true SIDE_PRODUCT k p])) := by
  subst hfK hfP
  have key : ∀ cs, main_region_main_product_as_side_product_elsewhere (append_clauses f cs)
        f.num_of_regions f.num_of_products
      = .ok (append_clauses f (cs ++
          (List.range' 0 (f.num_of_products - 0)).flatMap fun p =>
            [[] ++ (List.range' 1 (f.num_of_regions - 1)).flatMap fun k =>
              [literal_value f.num_of_regions f.num_of_products false MAIN_PRODUCT 0 p,
               literal_value f.num_of_regions f.num_of_products true SIDE_PRODUCT k p]])) := by
    intro cs
    unfold main_region_main_product_as_side_product_elsewhere
    rw [if_neg (by omega)]
    refine for_loop_acc (fun cs => append_clauses f cs) _ _ 0 f.num_of_products ?_ cs
    intro p _ hp cs
    simp only [create_new_clause_append]
    refine for_loop_acc (fun ls => append_clauses f (cs ++ [ls])) _ _ 1 f.num_of_regions ?_ []
    intro k _ hk ls
    show (add_literal _ _ false MAIN_PRODUCT 0 p).bind _ = _
    rw [add_literal_last f cs ls false MAIN_PRODUCT 0 p hK hp]
    show add_literal _ _ true SIDE_PRODUCT k p = _
    rw [add_literal_last f cs _ true SIDE_PRODUCT k p hk hp]
    simp
  have h := key []
  rw [append_clauses_nil] at h
  rw [h]
  simp only [List.nil_append, Nat.sub_zero, ← List.range_eq_range', flatMap_single]

/-! ## Reading literals -/

theorem literal_holds_pos (a : Nat → Bool) (n : Nat) (h : 0 < n) :
    literal_holds a (n : Int) = a n := by
  unfold literal_holds
  rw [if_pos (by omega)]
  simp

theorem literal_holds_neg (a : Nat → Bool) (n : Nat) (h : 0 < n) :
    literal_holds a (-(n : Int)) = !a n := by
  unfold literal_holds
  rw [if_neg (by omega), if_pos (by omega)]
  simp

theorem literals_hold_iff (a : Nat → Bool) (ls : List Int) :
    literals_hold a ls = true ↔ ∃ l ∈ ls, literal_holds a l = true := by
  unfold literals_hold
  exact List.any_eq_true

/-! ## C4, C5, C6: `main_region_main_product_as_side_product_elsewhere` -/

/-- C4 (the code departs from it): for every K > 0 and P > 0 the generator
appends exactly P clauses, one per product p, but the clause for p is the
sequence NOT h(0,p), v(1,p), NOT h(0,p), v(2,p), ..., NOT h(0,p), v(K-1,p) of
2*(K-1) literals, not of K: the literal NOT h(0,p) is added once per region
k >= 1, inside the loop, instead of once per clause. -/
theorem elsewhere_clause_lengths (f : CNF) (K P : Nat) (hK : 0 < K) (_hP : 0 < P)
    (hfK : f.num_of_regions = K) (hfP : f.num_of_products = P) :
    main_region_main_product_as_side_product_elsewhere f K P
      = .ok (append_clauses f ((List.range P).map fun p =>
          (List.range' 1 (K - 1)).flatMap fun k =>
            [literal_value K P false MAIN_PRODUCT 0 p,
             literal_value K P true SIDE_PRODUCT k p])) ∧
    ((List.range P).map fun p =>
      (List.range' 1 (K - 1)).flatMap fun k =>
        [literal_value K P false MAIN_PRODUCT 0 p,
         literal_value K P true SIDE_PRODUCT k p]).length = P ∧
    ∀ p, p < P →
      ((List.range' 1 (K - 1)).flatMap fun k =>
        [literal_value K P false MAIN_PRODUCT 0 p,
         literal_value K P true SIDE_PRODUCT k p]).length = 2 * (K - 1) := by
  refine ⟨elsewhere_run f K P hK hfK hfP, by simp, ?_⟩
  intro p _
  have h : ∀ l : List Nat, (l.flatMap fun k =>
      [literal_value K P false MAIN_PRODUCT 0 p,
       literal_value K P true SIDE_PRODUCT k p]).length = 2 * l.length := by
    intro l
    induction l with
    | nil => rfl
    | cons x xs ih =>
      rw [List.flatMap_cons, List.length_append, ih, List.length_cons]
      simp only [List.length_cons, List.length_nil]
      omega
  rw [h, List.length_range']

/-- C4 at K = 3 regions and P = 1 product: the single clause appended is
-1 5 -1 6, of length 4 and not 3. -/
theorem elsewhere_clause_lengths_witness :
    main_region_main_product_as_side_product_elsewhere (empty_formula 3 1) 3 1
      = .ok ⟨[⟨[-1, 5, -1, 6], 3, 1⟩], 1, 3, 1⟩ :=
  (elsewhere_clause_lengths (empty_formula 3 1) 3 1 (by decide) (by decide) rfl rfl).1

/-- C5 (the code departs from it): for K = 1 and every P > 0 the generator
appends P clauses that hold no literal at all; the literal NOT h(0,p) is only
added inside the loop over the regions k >= 1, which has no round. -/
theorem elsewhere_single_region (f : CNF) (P : Nat) (_hP : 0 < P)
    (hfK : f.num_of_regions = 1) (hfP : f.num_of_products = P) :
    main_region_main_product_as_side_product_elsewhere f 1 P
      = .ok (append_clauses f (List.replicate P [])) := by
  rw [elsewhere_run f 1 P (by decide) hfK hfP]
  congr 2
  simp only [Nat.sub_self, List.range'_zero, List.flatMap_nil]
  clear hfP _hP
  induction P with
  | zero => rfl
  | succ n ih => rw [List.range_succ, List.map_append, ih, List.replicate_succ']; rfl

/-- C5 at K = 1 region and P = 2 products: two empty clauses are appended. -/
theorem elsewhere_single_region_witness :
    main_region_main_product_as_side_product_elsewhere (empty_formula 1 2) 1 2
      = .ok ⟨[⟨[], 1, 2⟩, ⟨[], 1, 2⟩], 2, 1, 2⟩ :=
  elsewhere_single_region (empty_formula 1 2) 2 (by decide) rfl rfl

/-- The literals of the clause the generator builds for product `p`. -/
theorem elsewhere_mem (K P p : Nat) (hK : 2 ≤ K) (l : Int) :
    (l ∈ (List.range' 1 (K - 1)).flatMap fun k =>
        [literal_value K P false MAIN_PRODUCT 0 p, literal_value K P true SIDE_PRODUCT k p]) ↔
      (l = literal_value K P false MAIN_PRODUCT 0 p ∨
        ∃ k, 1 ≤ k ∧ k ≤ K - 1 ∧ l = literal_value K P true SIDE_PRODUCT k p) := by
  simp only [List.mem_flatMap, List.mem_range'_1, List.mem_cons, List.mem_singleton,
    List.not_mem_nil, or_false]
  constructor
  · rintro ⟨k, ⟨h1, h2⟩, h | h⟩
    · exact Or.inl h
    · exact Or.inr ⟨k, h1, by omega, h⟩
  · rintro (h | ⟨k, h1, h2, h⟩)
    · exact ⟨1, ⟨Nat.le_refl _, by omega⟩, Or.inl h⟩
    · exact ⟨k, ⟨h1, by omega⟩, Or.inr h⟩

/-- C6, as stated, fails in its last part: for K = 2^31 regions and P = 2
products the offset K*P wraps to 0, so the clause built for product 0 holds the
literal 3 where v(1,0) = 2^32+3 is meant; the assignment that makes exactly the
variables 1 and 3 true satisfies the clause although h(0,0) is true and no
v(k,0) is. -/
theorem elsewhere_meaning_wraps :
    ∃ (blk : List (List Int)) (ls : List Int) (a : Nat → Bool),
      main_region_main_product_as_side_product_elsewhere
          (empty_formula 2147483648 2) 2147483648 2
        = .ok (append_clauses (empty_formula 2147483648 2) blk) ∧
      blk[0]? = some ls ∧ literals_hold a ls = true ∧
      ¬ (a (h_var 2 0 0) = false ∨
          ∃ k, 1 ≤ k ∧ k < 2147483648 ∧ a (v_var 2147483648 2 k 0) = true) := by
  refine ⟨_, (List.range' 1 (2147483648 - 1)).flatMap fun k =>
      [literal_value 2147483648 2 false MAIN_PRODUCT 0 0,
       literal_value 2147483648 2 true SIDE_PRODUCT k 0], fun n => n == 1 || n == 3,
    elsewhere_run (empty_formula 2147483648 2) 2147483648 2 (by decide) rfl rfl, ?_, ?_, ?_⟩
  · simp [List.range_succ]
  · rw [literals_hold_iff]
    refine ⟨3, ?_, by decide⟩
    rw [elsewhere_mem 2147483648 2 0 (by decide)]
    exact Or.inr ⟨1, by decide, by decide, by decide⟩
  · rintro (h | ⟨k, h1, h2, h⟩)
    · exact absurd h (by decide)
    · simp only [v_var, Bool.or_eq_true, beq_iff_eq] at h
      omega

/-- C6, amended: for K >= 2 and P > 0 the generator appends exactly P clauses,
one per product p in increasing order of p, and the set of literals occurring in
the clause for p is exactly the literal NOT h(0,p) together with the literals
v(k,p) for 1 <= k <= K-1; when 2*K*P <= 2^31 - 1 these literals are the numbers
-(p+1) and P*k+p+1+K*P, and a truth assignment satisfies the clause if and only
if h(0,p) is false or v(k,p) is true for some region k >= 1. -/
theorem elsewhere_clauses_meaning (f : CNF) (K P : Nat) (hK : 2 ≤ K) (_hP : 0 < P)
    (hfK : f.num_of_regions = K) (hfP : f.num_of_products = P) :
    ∃ blk : List (List Int),
      main_region_main_product_as_side_product_elsewhere f K P = .ok (append_clauses f blk) ∧
      blk.length = P ∧
      ∀ p, p < P → ∃ ls, blk[p]? = some ls ∧
        (∀ l, l ∈ ls ↔
          (l = literal_value K P false MAIN_PRODUCT 0 p ∨
            ∃ k, 1 ≤ k ∧ k ≤ K - 1 ∧ l = literal_value K P true SIDE_PRODUCT k p)) ∧
        (2 * K * P ≤ 2147483647 →
          literal_value K P false MAIN_PRODUCT 0 p = -((h_var P 0 p : Nat) : Int) ∧
          (∀ k, 1 ≤ k → k ≤ K - 1 →
            literal_value K P true SIDE_PRODUCT k p = ((v_var K P k p : Nat) : Int)) ∧
          ∀ a : Nat → Bool, literals_hold a ls = true ↔
            (a (h_var P 0 p) = false ∨
              ∃ k, 1 ≤ k ∧ k ≤ K - 1 ∧ a (v_var K P k p) = true)) := by
  refine ⟨_, elsewhere_run f K P (by omega) hfK hfP, by simp, ?_⟩
  intro p hp
  refine ⟨_, by simp [hp], elsewhere_mem K P p hK, ?_⟩
  intro hb
  have e1 : literal_value K P false MAIN_PRODUCT 0 p = -((h_var P 0 p : Nat) : Int) := by
    rw [literal_value_eq K P false MAIN_PRODUCT 0 p hb (by omega) hp]
    simp [MAIN_PRODUCT, h_var]
  have e2 : ∀ k, 1 ≤ k → k ≤ K - 1 →
      literal_value K P true SIDE_PRODUCT k p = ((v_var K P k p : Nat) : Int) := by
    intro k _ h2
    rw [literal_value_eq K P true SIDE_PRODUCT k p hb (by omega) hp]
    simp [SIDE_PRODUCT, v_var]
  refine ⟨e1, e2, ?_⟩
  intro a
  rw [literals_hold_iff]
  constructor
  · rintro ⟨l, hl, hh⟩
    rcases (elsewhere_mem K P p hK l).1 hl with h | ⟨k, h1, h2, h⟩
    · left
      rw [h, e1, literal_holds_neg a _ (by simp [h_var])] at hh
      simpa using hh
    · right
      rw [h, e2 k h1 h2, literal_holds_pos a _ (by simp [v_var])] at hh
      exact ⟨k, h1, h2, hh⟩
  · rintro (h | ⟨k, h1, h2, h⟩)
    · refine ⟨_, (elsewhere_mem K P p hK _).2 (Or.inl rfl), ?_⟩
      rw [e1, literal_holds_neg a _ (by simp [h_var])]
      simpa using h
    · refine ⟨_, (elsewhere_mem K P p hK _).2 (Or.inr ⟨k, h1, h2, rfl⟩), ?_⟩
      rw [e2 k h1 h2, literal_holds_pos a _ (by simp [v_var])]
      exact h

/-- The amended C6 at K = 3 regions and P = 2 products. -/
theorem elsewhere_clauses_meaning_witness :
    ∃ blk : List (List Int),
      main_region_main_product_as_side_product_elsewhere (empty_formula 3 2) 3 2
        = .ok (append_clauses (empty_formula 3 2) blk) ∧
      blk.length = 2 ∧
      ∀ p, p < 2 → ∃ ls, blk[p]? = some ls ∧
        (∀ l, l ∈ ls ↔
          (l = literal_value 3 2 false MAIN_PRODUCT 0 p ∨
            ∃ k, 1 ≤ k ∧ k ≤ 3 - 1 ∧ l = literal_value 3 2 true SIDE_PRODUCT k p)) ∧
        (2 * 3 * 2 ≤ 2147483647 →
          literal_value 3 2 false MAIN_PRODUCT 0 p = -((h_var 2 0 p : Nat) : Int) ∧
          (∀ k, 1 ≤ k → k ≤ 3 - 1 →
            literal_value 3 2 true SIDE_PRODUCT k p = ((v_var 3 2 k p : Nat) : Int)) ∧
          ∀ a : Nat → Bool, literals_hold a ls = true ↔
            (a (h_var 2 0 p) = false ∨
              ∃ k, 1 ≤ k ∧ k ≤ 3 - 1 ∧ a (v_var 3 2 k p) = true)) :=
  elsewhere_clauses_meaning (empty_formula 3 2) 3 2 (by decide) (by decide) rfl rfl

/-! ## The triples of the `max_one` generators -/

theorem mem_pair_triples (K P : Nat) (t : Nat × Nat × Nat) :
    t ∈ pair_triples K P ↔ t.1 < K ∧ t.2.1 < t.2.2 ∧ t.2.2 < P := by
  obtain ⟨k, p1, p2⟩ := t
  simp only [pair_triples, List.mem_flatMap, List.mem_range]
  constructor
  · rintro ⟨k', hk, q1, hq1, q2, hq2, h⟩
    by_cases hc : q1 ≥ q2
    · rw [if_pos hc] at h; exact absurd h (List.not_mem_nil _)
    · rw [if_neg hc, List.mem_singleton] at h
      simp only [Prod.mk.injEq] at h
      obtain ⟨rfl, rfl, rfl⟩ := h
      exact ⟨hk, by omega, hq2⟩
  · rintro ⟨hk, h12, h2⟩
    refine ⟨k, hk, p1, by omega, p2, h2, ?_⟩
    rw [if_neg (by omega)]
    exact List.mem_singleton.2 rfl

theorem pair_triples_sorted (K P : Nat) : (pair_triples K P).Pairwise lex_lt := by
  unfold pair_triples
  rw [List.pairwise_flatMap]
  constructor
  · intro k _
    rw [List.pairwise_flatMap]
    constructor
    · intro p1 _
      rw [List.pairwise_flatMap]
      constructor
      · intro p2 _
        by_cases hc : p1 ≥ p2
        · rw [if_pos hc]; exact List.Pairwise.nil
        · rw [if_neg hc]; exact List.pairwise_singleton _ _
      · refine (List.pairwise_lt_range P).imp ?_
        intro a b hab x hx y hy
        by_cases ha : p1 ≥ a
        · rw [if_pos ha] at hx; exact absurd hx (List.not_mem_nil _)
        by_cases hb : p1 ≥ b
        · rw [if_pos hb] at hy; exact absurd hy (List.not_mem_nil _)
        rw [if_neg ha, List.mem_singleton] at hx
        rw [if_neg hb, List.mem_singleton] at hy
        subst hx hy
        exact Or.inr ⟨rfl, Or.inr ⟨rfl, hab⟩⟩
    · refine (List.pairwise_lt_range P).imp ?_
      intro a b hab x hx y hy
      simp only [List.mem_flatMap] at hx hy
      obtain ⟨q, _, hx⟩ := hx
      obtain ⟨r, _, hy⟩ := hy
      by_cases ha : a ≥ q
      · rw [if_pos ha] at hx; exact absurd hx (List.not_mem_nil _)
      by_cases hb : b ≥ r
      · rw [if_pos hb] at hy; exact absurd hy (List.not_mem_nil _)
      rw [if_neg ha, List.mem_singleton] at hx
      rw [if_neg hb, List.mem_singleton] at hy
      subst hx hy
      exact Or.inr ⟨rfl, Or.inl hab⟩
  · refine (List.pairwise_lt_range K).imp ?_
    intro a b hab x hx y hy
    simp only [List.mem_flatMap] at hx hy
    obtain ⟨q1, _, q2, _, hx⟩ := hx
    obtain ⟨r1, _, r2, _, hy⟩ := hy
    by_cases ha : q1 ≥ q2
    · rw [if_pos ha] at hx; exact absurd hx (List.not_mem_nil _)
    by_cases hb : r1 ≥ r2
    · rw [if_pos hb] at hy; exact absurd hy (List.not_mem_nil _)
    rw [if_neg ha, List.mem_singleton] at hx
    rw [if_neg hb, List.mem_singleton] at hy
    subst hx hy
    exact Or.inl hab

/-- The number of rounds `p_2` of the innermost loop that pass the test. -/
theorem inner_count {α : Type} (p1 : Nat) (x : Nat → α) (n : Nat) :
    ((List.range n).flatMap fun p2 => if p1 ≥ p2 then [] else [x p2]).length
      = n - (p1 + 1) := by
  induction n with
  | zero => simp
  | succ n ih =>
    rw [List.range_succ, List.flatMap_append, List.length_append, ih]
    by_cases hc : p1 ≥ n
    · simp [if_pos hc]; omega
    · simp [if_neg hc]; omega

/-- The number of pairs `p_1 < p_2 < P` met in the first `n` rounds `p_1`. -/
theorem middle_count {α : Type} (P : Nat) (x : Nat → Nat → α) (n : Nat) (hn : n ≤ P) :
    2 * ((List.range n).flatMap fun p1 =>
        (List.range P).flatMap fun p2 => if p1 ≥ p2 then [] else [x p1 p2]).length
      + n * (n + 1) = 2 * n * P := by
  induction n with
  | zero => simp
  | succ n ih =>
    have ih1 := ih (by omega)
    rw [List.range_succ, List.flatMap_append, List.length_append]
    simp only [List.flatMap_cons, List.flatMap_nil, List.append_nil]
    rw [inner_count n (x n) P]
    obtain ⟨d, rfl⟩ : ∃ d, P = n + 1 + d := ⟨P - (n + 1), by omega⟩
    have e : n + 1 + d - (n + 1) = d := by omega
    rw [e]
    generalize ((List.range n).flatMap fun p1 =>
        (List.range (n + 1 + d)).flatMap fun p2 =>
          if p1 ≥ p2 then [] else [x p1 p2]).length = L at ih1 ⊢
    nlinarith [ih1]

theorem pair_triples_length (K P : Nat) :
    (pair_triples K P).length = K * P * (P - 1) / 2 := by
  have hm := fun k : Nat => middle_count P (fun p1 p2 => (k, p1, p2)) P (Nat.le_refl P)
  have hk : ∀ n : Nat, 2 * ((List.range n).flatMap fun k =>
      (List.range P).flatMap fun p_1 =>
        (List.range P).flatMap fun p_2 =>
          if p_1 ≥ p_2 then [] else [(k, p_1, p_2)]).length = n * P * (P - 1) := by
    intro n
    induction n with
    | zero => simp
    | succ n ih =>
      rw [List.range_succ, List.flatMap_append, List.length_append]
      simp only [List.flatMap_cons, List.flatMap_nil, List.append_nil]
      have h1 := hm n
      rcases Nat.eq_zero_or_pos P with h0 | h0
      · subst h0; simpa using ih
      · obtain ⟨d, rfl⟩ : ∃ d, P = d + 1 := ⟨P - 1, by omega⟩
        simp only [Nat.add_sub_cancel] at ih ⊢
        generalize ((List.range n).flatMap fun k =>
          (List.range (d + 1)).flatMap fun p_1 =>
            (List.range (d + 1)).flatMap fun p_2 =>
              if p_1 ≥ p_2 then [] else [(k, p_1, p_2)]).length = A at ih ⊢
        generalize ((List.range (d + 1)).flatMap fun p_1 =>
            (List.range (d + 1)).flatMap fun p_2 =>
              if p_1 ≥ p_2 then [] else [(n, p_1, p_2)]).length = B at h1 ⊢
        nlinarith [ih, h1]
  have h := hk K
  unfold pair_triples
  omega

/-! ## C7: the path graph on three regions -/

/-- C7, as stated, fails: on the input `3 2` with the edges `0 1` and `1 2` the
eight generators leave 12 variables but 25 clauses, not 26 (the sum
3 + 3 + 3 + 6 + 4 + 2 + 2 + 2 is 25). -/
theorem path_graph_not_26 :
    ∃ f : CNF, main_formula 3 2 [(0, 1), (1, 2)] = .ok f ∧
      get_num_of_variables f = 12 ∧ get_num_of_clauses f ≠ 26 :=
  ⟨_, rfl, rfl, by decide⟩

/-- C7, amended: for K = 3, P = 2 and the registry built from the edges 0 1 and
1 2, each inserted in both directions, running the eight generators in the order
of `main` on an initially empty formula yields variable_count = 12 and
clause_count = 25, the number of clauses in the formula. -/
theorem path_graph_counts :
    ∃ f : CNF, main_formula 3 2 [(0, 1), (1, 2)] = .ok f ∧
      get_num_of_variables f = 12 ∧ get_num_of_clauses f = 25 ∧ f.clauses.length = 25 :=
  ⟨_, rfl, rfl, rfl, rfl⟩

/-! ## C8: `all_regions_min_one_main_product` -/

/-- C8: for K > 0 and P > 0 the generator appends exactly K clauses, one per
region k in increasing order, and the clause for region k is the sequence of the
positive main-product literals h(k,0), h(k,1), ..., h(k,P-1) in that order, so
it has length P; when 2*K*P <= 2^31 - 1 the literal h(k,p) is the number
P*k+p+1. -/
theorem min_one_main_clauses (f : CNF) (K P : Nat) (hK : 0 < K) (_hP : 0 < P)
    (hfK : f.num_of_regions = K) (hfP : f.num_of_products = P) :
    ∃ blk : List (List Int),
      all_regions_min_one_main_product f K P = .ok (append_clauses f blk) ∧
      blk.length = K ∧
      (∀ k, k < K → ∃ ls, blk[k]? = some ls ∧ ls.length = P ∧
        ∀ p, p < P → ls[p]? = some (literal_value K P true MAIN_PRODUCT k p)) ∧
      (2 * K * P ≤ 2147483647 → ∀ k p, k < K → p < P →
        literal_value K P true MAIN_PRODUCT k p = ((P * k + p + 1 : Nat) : Int)) := by
  refine ⟨_, min_one_main_run f K P hK hfK hfP, by simp, ?_, ?_⟩
  · intro k hk
    refine ⟨(List.range P).map fun p => literal_value K P true MAIN_PRODUCT k p,
      by simp [hk], by simp, ?_⟩
    intro p hp
    simp [hp]
  · intro hb k p hk hp
    rw [literal_value_eq K P true MAIN_PRODUCT k p hb hk hp]
    simp [MAIN_PRODUCT]

/-- C8 at K = 3 regions and P = 2 products: the clauses 1 2, 3 4 and 5 6. -/
theorem min_one_main_clauses_witness :
    ∃ blk : List (List Int),
      all_regions_min_one_main_product (empty_formula 3 2) 3 2
        = .ok (append_clauses (empty_formula 3 2) blk) ∧
      blk.length = 3 ∧
      (∀ k, k < 3 → ∃ ls, blk[k]? = some ls ∧ ls.length = 2 ∧
        ∀ p, p < 2 → ls[p]? = some (literal_value 3 2 true MAIN_PRODUCT k p)) ∧
      (2 * 3 * 2 ≤ 2147483647 → ∀ k p, k < 3 → p < 2 →
        literal_value 3 2 true MAIN_PRODUCT k p = ((2 * k + p + 1 : Nat) : Int)) :=
  min_one_main_clauses (empty_formula 3 2) 3 2 (by decide) (by decide) rfl rfl

/-! ## C9: `all_regions_max_one_main_product` -/

/-- C9: for K > 0 and P > 0 the generator appends exactly K*P*(P-1)/2 clauses,
each of length 2: one clause NOT h(k,p1), NOT h(k,p2) per triple (k,p1,p2) of
the list `pair_triples K P`, in the order of that list, which holds exactly the
triples with k < K and p1 < p2 < P and is strictly increasing in lexicographic
order, so that every triple occurs once; for P = 1 nothing is appended. When
2*K*P <= 2^31 - 1 the two literals are the numbers -(P*k+p1+1) and
-(P*k+p2+1). -/
theorem max_one_main_clauses (f : CNF) (K P : Nat) (hK : 0 < K) (_hP : 0 < P)
    (hfK : f.num_of_regions = K) (hfP : f.num_of_products = P) :
    ∃ blk : List (List Int),
      all_regions_max_one_main_product f K P = .ok (append_clauses f blk) ∧
      blk = (pair_triples K P).map (fun t =>
        [literal_value K P false MAIN_PRODUCT t.1 t.2.1,
         literal_value K P false MAIN_PRODUCT t.1 t.2.2]) ∧
      blk.length = K * P * (P - 1) / 2 ∧
      (∀ ls ∈ blk, ls.length = 2) ∧
      (∀ t, t ∈ pair_triples K P ↔ t.1 < K ∧ t.2.1 < t.2.2 ∧ t.2.2 < P) ∧
      (pair_triples K P).Pairwise lex_lt ∧
      (P = 1 → blk = []) ∧
      (2 * K * P ≤ 2147483647 → ∀ t ∈ pair_triples K P,
        literal_value K P false MAIN_PRODUCT t.1 t.2.1 = -((P * t.1 + t.2.1 + 1 : Nat) : Int) ∧
        literal_value K P false MAIN_PRODUCT t.1 t.2.2
          = -((P * t.1 + t.2.2 + 1 : Nat) : Int)) := by
  refine ⟨_, max_one_main_run f K P hK hfK hfP, rfl, ?_, ?_, mem_pair_triples K P,
    pair_triples_sorted K P, ?_, ?_⟩
  · rw [List.length_map, pair_triples_length]
  · intro ls hls
    simp only [List.mem_map] at hls
    obtain ⟨t, _, rfl⟩ := hls
    rfl
  · intro h1
    have h0 : (pair_triples K P).length = 0 := by
      rw [pair_triples_length, h1]; simp
    rw [List.length_eq_zero.1 h0]
    rfl
  · intro hb t ht
    obtain ⟨h1, h2, h3⟩ := (mem_pair_triples K P t).1 ht
    rw [literal_value_eq K P false MAIN_PRODUCT t.1 t.2.1 hb h1 (by omega),
      literal_value_eq K P false MAIN_PRODUCT t.1 t.2.2 hb h1 h3]
    simp [MAIN_PRODUCT]

/-- C9 at K = 1 region and P = 3 products: the clauses -1 -2, -1 -3 and -2 -3. -/
theorem max_one_main_clauses_witness :
    ∃ blk : List (List Int),
      all_regions_max_one_main_product (empty_formula 1 3) 1 3
        = .ok (append_clauses (empty_formula 1 3) blk) ∧
      blk = (pair_triples 1 3).map (fun t =>
        [literal_value 1 3 false MAIN_PRODUCT t.1 t.2.1,
         literal_value 1 3 false MAIN_PRODUCT t.1 t.2.2]) ∧
      blk.length = 1 * 3 * (3 - 1) / 2 ∧
      (∀ ls ∈ blk, ls.length = 2) ∧
      (∀ t, t ∈ pair_triples 1 3 ↔ t.1 < 1 ∧ t.2.1 < t.2.2 ∧ t.2.2 < 3) ∧
      (pair_triples 1 3).Pairwise lex_lt ∧
      (3 = 1 → blk = []) ∧
      (2 * 1 * 3 ≤ 2147483647 → ∀ t ∈ pair_triples 1 3,
        literal_value 1 3 false MAIN_PRODUCT t.1 t.2.1 = -((3 * t.1 + t.2.1 + 1 : Nat) : Int) ∧
        literal_value 1 3 false MAIN_PRODUCT t.1 t.2.2
          = -((3 * t.1 + t.2.2 + 1 : Nat) : Int)) :=
  max_one_main_clauses (empty_formula 1 3) 1 3 (by decide) (by decide) rfl rfl

/-! ## C10: `all_regions_max_one_side_product` -/

/-- C10, as stated, fails: for K = 2^31 regions and P = 2 products the offset
K*P wraps to 0, so the clause for region 0 is -1 -2 where v(0,0) = 2^32+1 and
v(0,1) = 2^32+2 are meant; the assignment that makes exactly the variables 1 and
2 true has no side-product variable true at all and still violates that
clause. -/
theorem max_one_side_meaning_wraps :
    ∃ (blk : List (List Int)) (a : Nat → Bool),
      all_regions_max_one_side_product (empty_formula 2147483648 2) 2147483648 2
        = .ok (append_clauses (empty_formula 2147483648 2) blk) ∧
      ¬ ((∀ ls ∈ blk, literals_hold a ls = true) ↔
          ∀ k, k < 2147483648 → ∀ p1 p2, p1 < 2 → p2 < 2 →
            a (v_var 2147483648 2 k p1) = true → a (v_var 2147483648 2 k p2) = true →
            p1 = p2) := by
  refine ⟨_, fun n => n == 1 || n == 2,
    max_one_side_run (empty_formula 2147483648 2) 2147483648 2 (by decide) rfl rfl, ?_⟩
  intro h
  have hr : ∀ k, k < 2147483648 → ∀ p1 p2, p1 < 2 → p2 < 2 →
      (fun n => n == 1 || n == 2) (v_var 2147483648 2 k p1) = true →
      (fun n => n == 1 || n == 2) (v_var 2147483648 2 k p2) = true → p1 = p2 := by
    intro k _ p1 p2 _ _ h1 _
    simp only [v_var, Bool.or_eq_true, beq_iff_eq] at h1
    omega
  have hl := h.2 hr [-1, -2] (by
    simp only [List.mem_map]
    exact ⟨(0, 0, 1), (mem_pair_triples _ _ _).2 ⟨by decide, by decide, by decide⟩, by decide⟩)
  exact absurd hl (by decide)

/-- C10, amended: for K > 0 and P > 0 with 2*K*P <= 2^31 - 1 and every truth
assignment, the assignment satisfies all clauses appended by
`all_regions_max_one_side_product` if and only if in every region k < K at most
one product p < P has its side-product variable v(k,p) true. -/
theorem max_one_side_meaning (f : CNF) (K P : Nat) (hK : 0 < K) (_hP : 0 < P)
    (hfK : f.num_of_regions = K) (hfP : f.num_of_products = P)
    (hb : 2 * K * P ≤ 2147483647) :
    ∃ blk : List (List Int),
      all_regions_max_one_side_product f K P = .ok (append_clauses f blk) ∧
      ∀ a : Nat → Bool,
        (∀ ls ∈ blk, literals_hold a ls = true) ↔
          ∀ k, k < K → ∀ p1 p2, p1 < P → p2 < P →
            a (v_var K P k p1) = true → a (v_var K P k p2) = true → p1 = p2 := by
  refine ⟨_, max_one_side_run f K P hK hfK hfP, ?_⟩
  intro a
  have val : ∀ k p, k < K → p < P →
      literal_value K P false SIDE_PRODUCT k p = -((v_var K P k p : Nat) : Int) := by
    intro k p hk hp
    rw [literal_value_eq K P false SIDE_PRODUCT k p hb hk hp]
    simp [SIDE_PRODUCT, v_var]
  have pair : ∀ k p1 p2, k < K → p1 < P → p2 < P →
      (literals_hold a [literal_value K P false SIDE_PRODUCT k p1,
          literal_value K P false SIDE_PRODUCT k p2] = true ↔
        ¬ (a (v_var K P k p1) = true ∧ a (v_var K P k p2) = true)) := by
    intro k p1 p2 hk h1 h2
    rw [val k p1 hk h1, val k p2 hk h2]
    simp only [literals_hold, List.any_cons, List.any_nil, Bool.or_false, Bool.or_eq_true,
      literal_holds_neg a _ (show 0 < v_var K P k p1 by simp [v_var]),
      literal_holds_neg a _ (show 0 < v_var K P k p2 by simp [v_var])]
    cases a (v_var K P k p1) <;> cases a (v_var K P k p2) <;> simp
  constructor
  · intro h k hk p1 p2 h1 h2 a1 a2
    by_contra hne
    rcases Nat.lt_or_gt_of_ne hne with hlt | hgt
    · have := h _ (List.mem_map.2 ⟨(k, p1, p2),
        (mem_pair_triples K P _).2 ⟨hk, hlt, h2⟩, rfl⟩)
      exact ((pair k p1 p2 hk h1 h2).1 this) ⟨a1, a2⟩
    · have := h _ (List.mem_map.2 ⟨(k, p2, p1),
        (mem_pair_triples K P _).2 ⟨hk, hgt, h1⟩, rfl⟩)
      exact ((pair k p2 p1 hk h2 h1).1 this) ⟨a2, a1⟩
  · intro h ls hls
    obtain ⟨t, ht, rfl⟩ := List.mem_map.1 hls
    obtain ⟨c1, c2, c3⟩ := (mem_pair_triples K P t).1 ht
    refine (pair t.1 t.2.1 t.2.2 c1 (by omega) c3).2 ?_
    rintro ⟨a1, a2⟩
    have := h t.1 c1 t.2.1 t.2.2 (by omega) c3 a1 a2
    omega

/-- The amended C10 at K = 3 regions and P = 2 products. -/
theorem max_one_side_meaning_witness :
    ∃ blk : List (List Int),
      all_regions_max_one_side_product (empty_formula 3 2) 3 2
        = .ok (append_clauses (empty_formula 3 2) blk) ∧
      ∀ a : Nat → Bool,
        (∀ ls ∈ blk, literals_hold a ls = true) ↔
          ∀ k, k < 3 → ∀ p1 p2, p1 < 2 → p2 < 2 →
            a (v_var 3 2 k p1) = true → a (v_var 3 2 k p2) = true → p1 = p2 :=
  max_one_side_meaning (empty_formula 3 2) 3 2 (by decide) (by decide) rfl rfl (by decide)

/-! ## The remaining generators -/

/-- The clauses `main_side_products_different` adds. -/
theorem main_side_run (f : CNF) (K P : Nat) (hK : 0 < K)
    (hfK : f.num_of_regions = K) (hfP : f.num_of_products = P) :
    main_side_products_different f K P
      = .ok (append_clauses f ((List.range K).flatMap fun k =>
          (List.range P).map fun p =>
            [literal_value K P false SIDE_PRODUCT k p,
             literal_value K P false MAIN_PRODUCT k p])) := by
  subst hfK hfP
  have key : ∀ cs, main_side_products_different (append_clauses f cs)
        f.num_of_regions f.num_of_products
      = .ok (append_clauses f (cs ++
          (List.range' 0 (f.num_of_regions - 0)).flatMap fun k =>
            (List.range' 0 (f.num_of_products - 0)).flatMap fun p =>
              [[literal_value f.num_of_regions f.num_of_products false SIDE_PRODUCT k p,
                literal_value f.num_of_regions f.num_of_products false MAIN_PRODUCT k p]])) := by
    intro cs
    unfold main_side_products_different
    rw [if_neg (by omega)]
    refine for_loop_acc (fun cs => append_clauses f cs) _ _ 0 f.num_of_regions ?_ cs
    intro k _ hk cs
    refine for_loop_acc (fun cs => append_clauses f cs) _ _ 0 f.num_of_products ?_ cs
    intro p _ hp cs
    simp only [create_new_clause_append]
    exact pair_step f cs false SIDE_PRODUCT k p false MAIN_PRODUCT k p hk hp hk hp
  have h := key []
  rw [append_clauses_nil] at h
  rw [h]
  simp only [List.nil_append, Nat.sub_zero, ← List.range_eq_range', flatMap_single]

/-- The clauses `all_products_at_least_once_main_products` adds. -/
theorem at_least_once_run (f : CNF) (K P : Nat) (hK : 0 < K)
    (hfK : f.num_of_regions = K) (hfP : f.num_of_products = P) :
    all_products_at_least_once_main_products f K P
      = .ok (append_clauses f ((List.range P).map fun p =>
          (List.range K).map fun k => literal_value K P true MAIN_PRODUCT k p)) := by
  subst hfK hfP
  have key : ∀ cs, all_products_at_least_once_main_products (append_clauses f cs)
        f.num_of_regions f.num_of_products
      = .ok (append_clauses f (cs ++
          (List.range' 0 (f.num_of_products - 0)).flatMap fun p =>
            [[] ++ (List.range' 0 (f.num_of_regions - 0)).map fun k =>
              literal_value f.num_of_regions f.num_of_products true MAIN_PRODUCT k p])) := by
    intro cs
    unfold all_products_at_least_once_main_products
    rw [if_neg (by omega)]
    refine for_loop_acc (fun cs => append_clauses f cs) _ _ 0 f.num_of_products ?_ cs
    intro p _ hp cs
    simp only [create_new_clause_append]
    exact fill_loop f cs [] 0 f.num_of_regions true MAIN_PRODUCT (fun k => k) (fun _ => p)
      (fun _ _ h => h) (fun _ _ _ => hp)
  have h := key []
  rw [append_clauses_nil] at h
  rw [h]
  simp only [List.nil_append, Nat.sub_zero, ← List.range_eq_range', flatMap_single]

/-- The clauses `no_side_product_in_main_region` adds. -/
theorem no_side_run (f : CNF) (K P : Nat) (hK : 0 < K)
    (hfK : f.num_of_regions = K) (hfP : f.num_of_products = P) :
    no_side_product_in_main_region f K P
      = .ok (append_clauses f ((List.range P).map fun p =>
          [literal_value K P false SIDE_PRODUCT 0 p])) := by
  subst hfK hfP
  have key : ∀ cs, no_side_product_in_main_region (append_clauses f cs)
        f.num_of_regions f.num_of_products
      = .ok (append_clauses f (cs ++
          (List.range' 0 (f.num_of_products - 0)).flatMap fun p =>
            [[] ++ [literal_value f.num_of_regions f.num_of_products false SIDE_PRODUCT 0 p]])) := by
    intro cs
    unfold no_side_product_in_main_region
    rw [if_neg (by omega)]
    refine for_loop_acc (fun cs => append_clauses f cs) _ _ 0 f.num_of_products ?_ cs
    intro p _ hp cs
    simp only [create_new_clause_append]
    exact add_literal_last f cs [] false SIDE_PRODUCT 0 p hK hp
  have h := key []
  rw [append_clauses_nil] at h
  rw [h]
  simp only [List.nil_append, Nat.sub_zero, ← List.range_eq_range', flatMap_single]

/-- Inside a registry over `K > 0` regions `are_neighbours` answers by a search
of the list of `fst`. -/
theorem are_neighbours_inside (n : NeighbourLists) (fst snd : Nat)
    (hn : 0 < n.size) (h1 : fst < n.size) (h2 : snd < n.size) :
    are_neighbours n fst snd = .ok ((n.data.getD fst []).elem snd) := by
  unfold are_neighbours
  rw [if_neg (by omega), if_neg (by omega)]

/-- The clauses `neighbour_regions_different_main_products` adds. -/
theorem neighbour_run (f : CNF) (K P : Nat) (n : NeighbourLists) (hK : 0 < K)
    (hfK : f.num_of_regions = K) (hfP : f.num_of_products = P) (hn : n.size = K) :
    neighbour_regions_different_main_products f K P n
      = .ok (append_clauses f ((neighbour_triples K P n).map fun t =>
          [literal_value K P false MAIN_PRODUCT t.1 t.2.2,
           literal_value K P false MAIN_PRODUCT t.2.1 t.2.2])) := by
  subst hfK hfP
  have key : ∀ cs, neighbour_regions_different_main_products (append_clauses f cs)
        f.num_of_regions f.num_of_products n
      = .ok (append_clauses f (cs ++
          (List.range' 0 (f.num_of_regions - 0)).flatMap fun k_1 =>
            (List.range' 0 (f.num_of_regions - 0)).flatMap fun k_2 =>
              (List.range' 0 (f.num_of_products - 0)).flatMap fun p =>
                if k_1 ≥ k_2 then []
                else
                  match are_neighbours n k_1 k_2 with
                  | .ok true =>
                    [[literal_value f.num_of_regions f.num_of_products false MAIN_PRODUCT k_1 p,
                      literal_value f.num_of_regions f.num_of_products false MAIN_PRODUCT
                        k_2 p]]
                  | _ => [])) := by
    intro cs
    unfold neighbour_regions_different_main_products
    rw [if_neg (by omega)]
    refine for_loop_acc (fun cs => append_clauses f cs) _ _ 0 f.num_of_regions ?_ cs
    intro k_1 _ hk1 cs
    refine for_loop_acc (fun cs => append_clauses f cs) _ _ 0 f.num_of_regions ?_ cs
    intro k_2 _ hk2 cs
    refine for_loop_acc (fun cs => append_clauses f cs) _ _ 0 f.num_of_products ?_ cs
    intro p _ hp cs
    by_cases hc : k_1 ≥ k_2
    · simp only [if_pos hc, List.append_nil]
    · simp only [if_neg hc]
      rw [are_neighbours_inside n k_1 k_2 (by omega) (by omega) (by omega)]
      cases hadj : (n.data.getD k_1 []).elem k_2
      · simp [Except.bind]
      · simp only [Except.bind, if_true, create_new_clause_append]
        exact pair_step f cs false MAIN_PRODUCT k_1 p false MAIN_PRODUCT k_2 p hk1 hp hk2 hp
  have h := key []
  rw [append_clauses_nil] at h
  rw [h]
  simp only [neighbour_triples, List.map_flatMap, Nat.sub_zero, ← List.range_eq_range',
    List.nil_append, apply_ite (List.map _), List.map_nil, List.map_cons]
  refine congrArg Except.ok (congrArg (append_clauses f) ?_)
  refine congrArg _ (funext fun k_1 => congrArg _ (funext fun k_2 =>
    congrArg _ (funext fun p => ?_)))
  split
  · rfl
  · split <;> simp_all

/-! ## Row-major blocks and sorted triples -/

theorem length_grid {α : Type} (P : Nat) (g : Nat → Nat → α) (K : Nat) :
    ((List.range K).flatMap fun k => (List.range P).map (g k)).length = K * P := by
  induction K with
  | zero => simp
  | succ n ih =>
    rw [List.range_succ, List.flatMap_append, List.length_append, ih]
    simp only [List.flatMap_cons, List.flatMap_nil, List.append_nil, List.length_map,
      List.length_range]
    ring

/-- The entry of a row-major block for the pair `(k, p)` is at position
`P * k + p`. -/
theorem getElem_grid {α : Type} (P : Nat) (g : Nat → Nat → α) (K k p : Nat)
    (hk : k < K) (hp : p < P) :
    ((List.range K).flatMap fun k => (List.range P).map (g k))[P * k + p]? = some (g k p) := by
  induction K with
  | zero => omega
  | succ n ih =>
    rw [List.range_succ, List.flatMap_append]
    simp only [List.flatMap_cons, List.flatMap_nil, List.append_nil]
    by_cases hkn : k < n
    · have hlt : P * k + p < n * P := by
        have h1 : P * (k + 1) ≤ P * n := Nat.mul_le_mul_left P hkn
        have h2 : P * (k + 1) = P * k + P := by ring
        have h3 : P * n = n * P := Nat.mul_comm P n
        omega
      rw [List.getElem?_append_left (by rw [length_grid]; exact hlt)]
      exact ih hkn
    · have hkn2 : k = n := by omega
      subst hkn2
      rw [List.getElem?_append_right (by rw [length_grid]; rw [Nat.mul_comm]; omega), length_grid]
      have e : P * k + p - k * P = p := by rw [Nat.mul_comm]; omega
      rw [e]
      simp [hp]

/-- Three nested loops that keep at most the triple of their indices per round
list the triples kept in strictly increasing lexicographic order. -/
theorem nested_sorted (A B C : Nat) (g : Nat → Nat → Nat → List (Nat × Nat × Nat))
    (hg : ∀ a b c, g a b c = [] ∨ g a b c = [(a, b, c)]) :
    ((List.range A).flatMap fun a => (List.range B).flatMap fun b =>
      (List.range C).flatMap fun c => g a b c).Pairwise lex_lt := by
  have hm : ∀ a b c x, x ∈ g a b c → x = (a, b, c) := by
    intro a b c x hx
    rcases hg a b c with h | h
    · rw [h] at hx; exact absurd hx (List.not_mem_nil _)
    · rw [h] at hx; exact List.mem_singleton.1 hx
  rw [List.pairwise_flatMap]
  constructor
  · intro a _
    rw [List.pairwise_flatMap]
    constructor
    · intro b _
      rw [List.pairwise_flatMap]
      constructor
      · intro c _
        rcases hg a b c with h | h
        · rw [h]; exact List.Pairwise.nil
        · rw [h]; exact List.pairwise_singleton _ _
      · refine (List.pairwise_lt_range C).imp ?_
        intro c1 c2 hc x hx y hy
        rw [hm _ _ _ _ hx, hm _ _ _ _ hy]
        exact Or.inr ⟨rfl, Or.inr ⟨rfl, hc⟩⟩
    · refine (List.pairwise_lt_range B).imp ?_
      intro b1 b2 hb x hx y hy
      simp only [List.mem_flatMap] at hx hy
      obtain ⟨c1, _, hx⟩ := hx
      obtain ⟨c2, _, hy⟩ := hy
      rw [hm _ _ _ _ hx, hm _ _ _ _ hy]
      exact Or.inr ⟨rfl, Or.inl hb⟩
  · refine (List.pairwise_lt_range A).imp ?_
    intro a1 a2 ha x hx y hy
    simp only [List.mem_flatMap] at hx hy
    obtain ⟨b1, _, c1, _, hx⟩ := hx
    obtain ⟨b2, _, c2, _, hy⟩ := hy
    rw [hm _ _ _ _ hx, hm _ _ _ _ hy]
    exact Or.inl ha

theorem mem_neighbour_triples (K P : Nat) (n : NeighbourLists) (t : Nat × Nat × Nat) :
    t ∈ neighbour_triples K P n ↔
      t.1 < t.2.1 ∧ t.2.1 < K ∧ t.2.2 < P ∧ are_neighbours n t.1 t.2.1 = .ok true := by
  obtain ⟨k1, k2, p⟩ := t
  simp only [neighbour_triples, List.mem_flatMap, List.mem_range]
  constructor
  · rintro ⟨a, ha, b, hb, c, hc, h⟩
    by_cases hab : a ≥ b
    · rw [if_pos hab] at h; exact absurd h (List.not_mem_nil _)
    · rw [if_neg hab] at h
      split at h
      · rename_i heq
        rw [List.mem_singleton] at h
        simp only [Prod.mk.injEq] at h
        obtain ⟨rfl, rfl, rfl⟩ := h
        exact ⟨by omega, hb, hc, heq⟩
      · exact absurd h (List.not_mem_nil _)
  · rintro ⟨h1, h2, h3, h4⟩
    refine ⟨k1, by omega, k2, h2, p, h3, ?_⟩
    rw [if_neg (by omega)]
    have h5 : are_neighbours n k1 k2 = .ok true := h4
    rw [h5]
    exact List.mem_singleton.2 rfl

theorem neighbour_triples_sorted (K P : Nat) (n : NeighbourLists) :
    (neighbour_triples K P n).Pairwise lex_lt := by
  unfold neighbour_triples
  refine nested_sorted K K P _ ?_
  intro a b c
  by_cases hab : a ≥ b
  · left; rw [if_pos hab]
  · rw [if_neg hab]
    split
    · right; rfl
    · left; rfl

/-! ## C11: `main_side_products_different` -/

/-- C11: for K > 0 and P > 0 the generator appends exactly K*P clauses, one per
pair (k,p) in row-major order (k outer, p inner, so the clause of (k,p) is at
position P*k+p of the block), and the clause for (k,p) is the two-literal
sequence NOT v(k,p), NOT h(k,p); when 2*K*P <= 2^31 - 1 these are the numbers
-(P*k+p+1+K*P) and -(P*k+p+1). -/
theorem main_side_clauses (f : CNF) (K P : Nat) (hK : 0 < K) (_hP : 0 < P)
    (hfK : f.num_of_regions = K) (hfP : f.num_of_products = P) :
    ∃ blk : List (List Int),
      main_side_products_different f K P = .ok (append_clauses f blk) ∧
      blk.length = K * P ∧
      (∀ k p, k < K → p < P →
        blk[P * k + p]? = some [literal_value K P false SIDE_PRODUCT k p,
          literal_value K P false MAIN_PRODUCT k p]) ∧
      (2 * K * P ≤ 2147483647 → ∀ k p, k < K → p < P →
        literal_value K P false SIDE_PRODUCT k p = -((P * k + p + 1 + K * P : Nat) : Int) ∧
        literal_value K P false MAIN_PRODUCT k p = -((P * k + p + 1 : Nat) : Int)) := by
  refine ⟨_, main_side_run f K P hK hfK hfP, length_grid P _ K, ?_, ?_⟩
  · intro k p hk hp
    exact getElem_grid P (fun k p => [literal_value K P false SIDE_PRODUCT k p,
      literal_value K P false MAIN_PRODUCT k p]) K k p hk hp
  · intro hb k p hk hp
    rw [literal_value_eq K P false SIDE_PRODUCT k p hb hk hp,
      literal_value_eq K P false MAIN_PRODUCT k p hb hk hp]
    simp [MAIN_PRODUCT, SIDE_PRODUCT]

/-- C11 at K = 3 regions and P = 2 products. -/
theorem main_side_clauses_witness :
    ∃ blk : List (List Int),
      main_side_products_different (empty_formula 3 2) 3 2
        = .ok (append_clauses (empty_formula 3 2) blk) ∧
      blk.length = 3 * 2 ∧
      (∀ k p, k < 3 → p < 2 →
        blk[2 * k + p]? = some [literal_value 3 2 false SIDE_PRODUCT k p,
          literal_value 3 2 false MAIN_PRODUCT k p]) ∧
      (2 * 3 * 2 ≤ 2147483647 → ∀ k p, k < 3 → p < 2 →
        literal_value 3 2 false SIDE_PRODUCT k p = -((2 * k + p + 1 + 3 * 2 : Nat) : Int) ∧
        literal_value 3 2 false MAIN_PRODUCT k p = -((2 * k + p + 1 : Nat) : Int)) :=
  main_side_clauses (empty_formula 3 2) 3 2 (by decide) (by decide) rfl rfl

/-! ## C12: `neighbour_regions_different_main_products` -/

/-- C12: for K > 0, P > 0 and a registry over K regions the generator appends
one clause NOT h(k1,p), NOT h(k2,p) per triple (k1,k2,p) of the list
`neighbour_triples K P neighbours`, in the order of that list, which holds
exactly the triples with k1 < k2 < K, p < P and `are_neighbours(k1,k2)` true and
is strictly increasing in lexicographic order, so that every triple occurs once;
no clause comes from a pair with k1 >= k2 or from a pair that `are_neighbours`
denies. -/
theorem neighbour_clauses (f : CNF) (K P : Nat) (neighbours : NeighbourLists)
    (hK : 0 < K) (_hP : 0 < P)
    (hfK : f.num_of_regions = K) (hfP : f.num_of_products = P)
    (hn : neighbours.size = K) :
    ∃ blk : List (List Int),
      neighbour_regions_different_main_products f K P neighbours
        = .ok (append_clauses f blk) ∧
      blk = (neighbour_triples K P neighbours).map (fun t =>
        [literal_value K P false MAIN_PRODUCT t.1 t.2.2,
         literal_value K P false MAIN_PRODUCT t.2.1 t.2.2]) ∧
      (∀ t, t ∈ neighbour_triples K P neighbours ↔
        t.1 < t.2.1 ∧ t.2.1 < K ∧ t.2.2 < P ∧
          are_neighbours neighbours t.1 t.2.1 = .ok true) ∧
      (neighbour_triples K P neighbours).Pairwise lex_lt ∧
      (∀ k_1 k_2 p, (k_1 ≥ k_2 ∨ are_neighbours neighbours k_1 k_2 = .ok false) →
        (k_1, k_2, p) ∉ neighbour_triples K P neighbours) ∧
      (2 * K * P ≤ 2147483647 → ∀ t ∈ neighbour_triples K P neighbours,
        literal_value K P false MAIN_PRODUCT t.1 t.2.2 = -((P * t.1 + t.2.2 + 1 : Nat) : Int) ∧
        literal_value K P false MAIN_PRODUCT t.2.1 t.2.2
          = -((P * t.2.1 + t.2.2 + 1 : Nat) : Int)) := by
  refine ⟨_, neighbour_run f K P neighbours hK hfK hfP hn, rfl,
    mem_neighbour_triples K P neighbours, neighbour_triples_sorted K P neighbours, ?_, ?_⟩
  · intro k_1 k_2 p h hmem
    obtain ⟨h1, _, _, h4⟩ := (mem_neighbour_triples K P neighbours _).1 hmem
    rcases h with h | h
    · exact absurd h1 (by simp only at h ⊢; omega)
    · simp only at h4
      rw [h] at h4
      exact absurd (Except.ok.inj h4) (by decide)
  · intro hb t ht
    obtain ⟨h1, h2, h3, _⟩ := (mem_neighbour_triples K P neighbours t).1 ht
    rw [literal_value_eq K P false MAIN_PRODUCT t.1 t.2.2 hb (by omega) h3,
      literal_value_eq K P false MAIN_PRODUCT t.2.1 t.2.2 hb h2 h3]
    simp [MAIN_PRODUCT]

/-- C12 at K = 3 regions, P = 2 products and the path graph 0 - 1 - 2. -/
theorem neighbour_clauses_witness :
    ∃ blk : List (List Int),
      neighbour_regions_different_main_products (empty_formula 3 2) 3 2 ⟨3, [[1], [0, 2], [1]]⟩
        = .ok (append_clauses (empty_formula 3 2) blk) ∧
      blk = (neighbour_triples 3 2 ⟨3, [[1], [0, 2], [1]]⟩).map (fun t =>
        [literal_value 3 2 false MAIN_PRODUCT t.1 t.2.2,
         literal_value 3 2 false MAIN_PRODUCT t.2.1 t.2.2]) ∧
      (∀ t, t ∈ neighbour_triples 3 2 ⟨3, [[1], [0, 2], [1]]⟩ ↔
        t.1 < t.2.1 ∧ t.2.1 < 3 ∧ t.2.2 < 2 ∧
          are_neighbours ⟨3, [[1], [0, 2], [1]]⟩ t.1 t.2.1 = .ok true) ∧
      (neighbour_triples 3 2 ⟨3, [[1], [0, 2], [1]]⟩).Pairwise lex_lt ∧
      (∀ k_1 k_2 p,
        (k_1 ≥ k_2 ∨ are_neighbours ⟨3, [[1], [0, 2], [1]]⟩ k_1 k_2 = .ok false) →
        (k_1, k_2, p) ∉ neighbour_triples 3 2 ⟨3, [[1], [0, 2], [1]]⟩) ∧
      (2 * 3 * 2 ≤ 2147483647 → ∀ t ∈ neighbour_triples 3 2 ⟨3, [[1], [0, 2], [1]]⟩,
        literal_value 3 2 false MAIN_PRODUCT t.1 t.2.2 = -((2 * t.1 + t.2.2 + 1 : Nat) : Int) ∧
        literal_value 3 2 false MAIN_PRODUCT t.2.1 t.2.2
          = -((2 * t.2.1 + t.2.2 + 1 : Nat) : Int)) :=
  neighbour_clauses (empty_formula 3 2) 3 2 ⟨3, [[1], [0, 2], [1]]⟩ (by decide) (by decide)
    rfl rfl rfl

/-! ## C13: `all_products_at_least_once_main_products` -/

/-- C13: for K > 0 and P > 0 the generator appends exactly P clauses, one per
product p in increasing order, and the clause for product p is the sequence of
the positive main-product literals h(0,p), h(1,p), ..., h(K-1,p) in that order,
so it has length K; when 2*K*P <= 2^31 - 1 the literal h(k,p) is the number
P*k+p+1. -/
theorem at_least_once_clauses (f : CNF) (K P : Nat) (hK : 0 < K) (_hP : 0 < P)
    (hfK : f.num_of_regions = K) (hfP : f.num_of_products = P) :
    ∃ blk : List (List Int),
      all_products_at_least_once_main_products f K P = .ok (append_clauses f blk) ∧
      blk.length = P ∧
      (∀ p, p < P → ∃ ls, blk[p]? = some ls ∧ ls.length = K ∧
        ∀ k, k < K → ls[k]? = some (literal_value K P true MAIN_PRODUCT k p)) ∧
      (2 * K * P ≤ 2147483647 → ∀ k p, k < K → p < P →
        literal_value K P true MAIN_PRODUCT k p = ((P * k + p + 1 : Nat) : Int)) := by
  refine ⟨_, at_least_once_run f K P hK hfK hfP, by simp, ?_, ?_⟩
  · intro p hp
    refine ⟨(List.range K).map fun k => literal_value K P true MAIN_PRODUCT k p,
      by simp [hp], by simp, ?_⟩
    intro k hk
    simp [hk]
  · intro hb k p hk hp
    rw [literal_value_eq K P true MAIN_PRODUCT k p hb hk hp]
    simp [MAIN_PRODUCT]

/-- C13 at K = 3 regions and P = 2 products: the clauses 1 3 5 and 2 4 6. -/
theorem at_least_once_clauses_witness :
    ∃ blk : List (List Int),
      all_products_at_least_once_main_products (empty_formula 3 2) 3 2
        = .ok (append_clauses (empty_formula 3 2) blk) ∧
      blk.length = 2 ∧
      (∀ p, p < 2 → ∃ ls, blk[p]? = some ls ∧ ls.length = 3 ∧
        ∀ k, k < 3 → ls[k]? = some (literal_value 3 2 true MAIN_PRODUCT k p)) ∧
      (2 * 3 * 2 ≤ 2147483647 → ∀ k p, k < 3 → p < 2 →
        literal_value 3 2 true MAIN_PRODUCT k p = ((2 * k + p + 1 : Nat) : Int)) :=
  at_least_once_clauses (empty_formula 3 2) 3 2 (by decide) (by decide) rfl rfl

/-! ## C14: `no_side_product_in_main_region` -/

/-- C14, as stated, fails in its value: for K = 2^31 regions and P = 2 products
the offset K*P wraps to 0 and the unit clause for product 0 holds the literal
-1, not -(0+1+K*P) = -(2^32+1). -/
theorem no_side_value_wraps :
    ∃ blk : List (List Int),
      no_side_product_in_main_region (empty_formula 2147483648 2) 2147483648 2
        = .ok (append_clauses (empty_formula 2147483648 2) blk) ∧
      blk[0]? = some [-1] ∧
      (-1 : Int) ≠ -((0 + 1 + 2147483648 * 2 : Nat) : Int) := by
  refine ⟨_, no_side_run (empty_formula 2147483648 2) 2147483648 2 (by decide) rfl rfl, ?_, ?_⟩
  · rfl
  · decide

/-- C14, amended: for K > 0 and P > 0 the generator appends exactly P clauses,
one per product p in increasing order, and the clause for product p is the unit
clause whose only literal is NOT v(0,p); when 2*K*P <= 2^31 - 1 that literal is
the value -(p+1+K*P). -/
theorem no_side_clauses (f : CNF) (K P : Nat) (hK : 0 < K) (_hP : 0 < P)
    (hfK : f.num_of_regions = K) (hfP : f.num_of_products = P) :
    ∃ blk : List (List Int),
      no_side_product_in_main_region f K P = .ok (append_clauses f blk) ∧
      blk.length = P ∧
      (∀ p, p < P → blk[p]? = some [literal_value K P false SIDE_PRODUCT 0 p]) ∧
      (2 * K * P ≤ 2147483647 → ∀ p, p < P →
        literal_value K P false SIDE_PRODUCT 0 p = -((p + 1 + K * P : Nat) : Int)) := by
  refine ⟨_, no_side_run f K P hK hfK hfP, by simp, ?_, ?_⟩
  · intro p hp
    simp [hp]
  · intro hb p hp
    rw [literal_value_eq K P false SIDE_PRODUCT 0 p hb hK hp]
    simp [SIDE_PRODUCT]

/-- The amended C14 at K = 3 regions and P = 2 products: the clauses -7 and -8. -/
theorem no_side_clauses_witness :
    ∃ blk : List (List Int),
      no_side_product_in_main_region (empty_formula 3 2) 3 2
        = .ok (append_clauses (empty_formula 3 2) blk) ∧
      blk.length = 2 ∧
      (∀ p, p < 2 → blk[p]? = some [literal_value 3 2 false SIDE_PRODUCT 0 p]) ∧
      (2 * 3 * 2 ≤ 2147483647 → ∀ p, p < 2 →
        literal_value 3 2 false SIDE_PRODUCT 0 p = -((p + 1 + 3 * 2 : Nat) : Int)) :=
  no_side_clauses (empty_formula 3 2) 3 2 (by decide) (by decide) rfl rfl

/-! ## The neighbour lists: facts -/

theorem getD_set_same {α : Type} (l : List α) (i : Nat) (x d : α) (h : i < l.length) :
    (l.set i x).getD i d = x := by
  simp [List.getD_eq_getElem?_getD, List.getElem?_set, h]

theorem getD_set_other {α : Type} (l : List α) (i j : Nat) (x d : α) (h : i ≠ j) :
    (l.set i x).getD j d = l.getD j d := by
  simp [List.getD_eq_getElem?_getD, List.getElem?_set, h]

/-- A call of `add_neighbour` with two different indices inside the registry
succeeds and adds `snd` to the list of `fst` and nothing else. -/
theorem add_neighbour_spec (r : NeighbourLists) (a b : Nat) (hs : 0 < r.size)
    (hl : r.data.length = r.size) (ha : a < r.size) (hb : b < r.size) (hab : a ≠ b) :
    ∃ r1, add_neighbour r a b = .ok r1 ∧ r1.size = r.size ∧ r1.data.length = r.size ∧
      ∀ i x, (x ∈ r1.data.getD i [] ↔ x ∈ r.data.getD i [] ∨ (i = a ∧ x = b)) := by
  unfold add_neighbour
  rw [if_neg (by omega), if_neg (by omega), if_neg hab]
  by_cases he : (r.data.getD a []).elem b = true
  · rw [if_pos he]
    refine ⟨r, rfl, rfl, hl, ?_⟩
    intro i x
    constructor
    · intro h; exact Or.inl h
    · rintro (h | ⟨rfl, rfl⟩)
      · exact h
      · exact List.elem_iff.1 he
  · rw [if_neg he]
    refine ⟨_, rfl, rfl, by simp [hl], ?_⟩
    intro i x
    by_cases hi : i = a
    · subst hi
      simp only [getD_set_same r.data i _ [] (by omega), List.mem_append, List.mem_singleton,
        true_and]
    · simp only [getD_set_other r.data a i _ [] (Ne.symm hi), hi, false_and, or_false]

/-- The answers of `are_neighbours` are symmetric when the lists are. -/
theorem are_neighbours_symm (r : NeighbourLists)
    (h : ∀ i j, i < r.size → j < r.size → (j ∈ r.data.getD i [] ↔ i ∈ r.data.getD j []))
    (fst snd : Nat) : are_neighbours r fst snd = are_neighbours r snd fst := by
  unfold are_neighbours
  by_cases h0 : r.size = 0
  · rw [if_pos h0, if_pos h0]
  · rw [if_neg h0, if_neg h0]
    by_cases h1 : fst ≥ r.size ∨ snd ≥ r.size
    · rw [if_pos h1, if_pos (Or.symm h1)]
    · rw [if_neg h1, if_neg (fun h2 => h1 (Or.symm h2))]
      congr 1
      rw [Bool.eq_iff_iff, List.elem_iff, List.elem_iff]
      exact h fst snd (by omega) (by omega)

/-- The reading loop of `main` keeps the lists symmetric. -/
theorem read_neighbours_inv (K : Nat) (hK : 0 < K) (pairs : List (Nat × Nat))
    (hp : ∀ q ∈ pairs, q.1 < K ∧ q.2 < K ∧ q.1 ≠ q.2) (r : NeighbourLists)
    (hs : r.size = K) (hl : r.data.length = K)
    (hsym : ∀ i j, (j ∈ r.data.getD i [] ↔ i ∈ r.data.getD j [])) :
    ∃ r1, read_neighbours r pairs = .ok r1 ∧ r1.size = K ∧ r1.data.length = K ∧
      ∀ i j, (j ∈ r1.data.getD i [] ↔ i ∈ r1.data.getD j []) := by
  induction pairs generalizing r with
  | nil => exact ⟨r, rfl, hs, hl, hsym⟩
  | cons q rest ih =>
    obtain ⟨a, b⟩ := q
    obtain ⟨ha, hb, hab⟩ := hp (a, b) (List.mem_cons_self _ _)
    simp only at ha hb hab
    obtain ⟨r1, e1, s1, l1, m1⟩ := add_neighbour_spec r a b (by omega) (by omega) (by omega)
      (by omega) hab
    obtain ⟨r2, e2, s2, l2, m2⟩ := add_neighbour_spec r1 b a (by omega) (by omega) (by omega)
      (by omega) (Ne.symm hab)
    have hsym2 : ∀ i j, (j ∈ r2.data.getD i [] ↔ i ∈ r2.data.getD j []) := by
      intro i j
      rw [m2, m2, m1, m1, hsym i j]
      constructor
      · rintro ((h | ⟨h1, h2⟩) | ⟨h1, h2⟩)
        · exact Or.inl (Or.inl h)
        · exact Or.inr ⟨h2, h1⟩
        · exact Or.inl (Or.inr ⟨h2, h1⟩)
      · rintro ((h | ⟨h1, h2⟩) | ⟨h1, h2⟩)
        · exact Or.inl (Or.inl h)
        · exact Or.inr ⟨h2, h1⟩
        · exact Or.inl (Or.inr ⟨h2, h1⟩)
    obtain ⟨r3, e3, s3, l3, m3⟩ := ih (fun q hq => hp q (List.mem_cons_of_mem _ hq)) r2
      (by omega) (by omega) hsym2
    refine ⟨r3, ?_, s3, l3, m3⟩
    show (add_neighbour r a b).bind _ = _
    rw [e1]
    show (add_neighbour r1 b a).bind _ = _
    rw [e2]
    exact e3

/-! ## C15: symmetry of the registry `main` builds -/

/-- C15: for K > 0 and every finite sequence of input pairs (a,b) with a, b < K
and a != b, the reading loop of `main`, which calls `add_neighbour(a,b)` and then
`add_neighbour(b,a)` for each pair starting from the empty registry, ends with
a registry for which `are_neighbours(fst,snd)` and `are_neighbours(snd,fst)` agree
for all fst and snd, also for indices >= K. -/
theorem registry_symmetric (K : Nat) (hK : 0 < K) (pairs : List (Nat × Nat))
    (hp : ∀ q ∈ pairs, q.1 < K ∧ q.2 < K ∧ q.1 ≠ q.2) :
    ∃ r, read_neighbours (empty_neighbours K) pairs = .ok r ∧
      ∀ fst snd, are_neighbours r fst snd = are_neighbours r snd fst := by
  obtain ⟨r, e, _, _, m⟩ := read_neighbours_inv K hK pairs hp (empty_neighbours K) rfl
    (by simp [empty_neighbours])
    (by
      intro i j
      have h : ∀ n, (List.replicate K ([] : List Nat)).getD n [] = [] := by
        intro n
        simp only [List.getD_eq_getElem?_getD, List.getElem?_replicate]
        split <;> rfl
      simp only [empty_neighbours, h, List.not_mem_nil])
  exact ⟨r, e, are_neighbours_symm r (fun i j _ _ => m i j)⟩

/-- C15 on the path graph 0 - 1 - 2 over K = 3 regions. -/
theorem registry_symmetric_witness :
    ∃ r, read_neighbours (empty_neighbours 3) [(0, 1), (1, 2)] = .ok r ∧
      ∀ fst snd, are_neighbours r fst snd = are_neighbours r snd fst :=
  registry_symmetric 3 (by decide) [(0, 1), (1, 2)] (by decide)

/-! ## C16: inserting an edge twice -/

/-- C16: in a registry of the shape `main` keeps (one list per region, no index
twice in a list; the empty registry has this shape and `add_neighbour` keeps
it), for fst, snd < K with fst != snd the call `add_neighbour(fst,snd)` leaves
snd exactly once in the neighbour list of fst, and a second call returns the
registry of the first call unchanged: the size and the contents of every
neighbour list are identical. -/
theorem add_neighbour_twice (r : NeighbourLists) (fst snd : Nat)
    (hwf : r.well_formed) (hf : fst < r.size) (hs : snd < r.size) (hne : fst ≠ snd) :
    ∃ r1, add_neighbour r fst snd = .ok r1 ∧
      (r1.data.getD fst []).count snd = 1 ∧
      add_neighbour r1 fst snd = .ok r1 ∧
      r1.size = r.size ∧ r1.well_formed ∧
      (empty_neighbours r.size).well_formed := by
  obtain ⟨hl, hnd⟩ := hwf
  have hwe : (empty_neighbours r.size).well_formed := by
    refine ⟨by simp [empty_neighbours], ?_⟩
    intro l hl
    simp only [empty_neighbours] at hl
    rw [(List.mem_replicate.1 hl).2]
    exact List.nodup_nil
  have hnd1 : (r.data.getD fst []).Nodup := by
    rw [List.getD_eq_getElem?_getD, List.getElem?_eq_getElem (by omega)]
    exact hnd _ (List.getElem_mem _)
  have again : ∀ r1 : NeighbourLists, r1.size = r.size →
      (r1.data.getD fst []).elem snd = true → add_neighbour r1 fst snd = .ok r1 := by
    intro r1 h1 h2
    unfold add_neighbour
    rw [if_neg (by omega), if_neg (by omega), if_neg hne, if_pos h2]
  by_cases he : (r.data.getD fst []).elem snd = true
  · refine ⟨r, again r rfl he, ?_, again r rfl he, rfl, ⟨hl, hnd⟩, hwe⟩
    exact List.count_eq_one_of_mem hnd1 (List.elem_iff.1 he)
  · have hnm : snd ∉ r.data.getD fst [] := fun h => he (List.elem_iff.2 h)
    have e1 : add_neighbour r fst snd
        = .ok { r with data := r.data.set fst (r.data.getD fst [] ++ [snd]) } := by
      unfold add_neighbour
      rw [if_neg (by omega), if_neg (by omega), if_neg hne, if_neg he]
    have g1 : (r.data.set fst (r.data.getD fst [] ++ [snd])).getD fst []
        = r.data.getD fst [] ++ [snd] := getD_set_same r.data fst _ [] (by omega)
    refine ⟨_, e1, ?_, ?_, rfl, ⟨by simp [hl], ?_⟩, hwe⟩
    · show ((r.data.set fst (r.data.getD fst [] ++ [snd])).getD fst []).count snd = 1
      rw [g1, List.count_append, List.count_eq_zero_of_not_mem hnm]
      simp
    · refine again _ rfl ?_
      show ((r.data.set fst (r.data.getD fst [] ++ [snd])).getD fst []).elem snd = true
      rw [g1]
      exact List.elem_iff.2 (by simp)
    · intro l hl2
      rcases List.mem_or_eq_of_mem_set hl2 with h | h
      · exact hnd l h
      · rw [h]
        exact List.Nodup.append hnd1 (List.nodup_singleton _)
          (by
            intro x hx hx2
            rw [List.mem_singleton] at hx2
            subst hx2
            exact hnm hx)

/-- C16 on the registry `0 -> [1], 1 -> [], 2 -> []` and the edge (1, 0). -/
theorem add_neighbour_twice_witness :
    ∃ r1, add_neighbour ⟨3, [[1], [], []]⟩ 1 0 = .ok r1 ∧
      (r1.data.getD 1 []).count 0 = 1 ∧
      add_neighbour r1 1 0 = .ok r1 ∧
      r1.size = 3 ∧ r1.well_formed ∧
      (empty_neighbours 3).well_formed :=
  add_neighbour_twice ⟨3, [[1], [], []]⟩ 1 0 ⟨rfl, by decide⟩ (by decide) (by decide)
    (by decide)

/-! ## C17: the failures of `add_neighbour` -/

/-- C17: in a registry over K > 0 regions `add_neighbour(fst,snd)` fails with
the index error ("Neighbour indices are too high.") if and only if fst >= K or
snd >= K, and otherwise fails with the reflexive-edge error ("Reflexive
neighbours are not allowed.") if and only if fst = snd; so `add_neighbour(r,r)`
fails for every r, a call with two different indices below K succeeds, and a
failing call yields no registry, so that no neighbour list is changed. -/
theorem add_neighbour_failures (r : NeighbourLists) (K : Nat) (hK : 0 < K)
    (hn : r.size = K) (fst snd : Nat) :
    (add_neighbour r fst snd = .error .indices_too_high ↔ (fst ≥ K ∨ snd ≥ K)) ∧
    (fst < K → snd < K → (add_neighbour r fst snd = .error .reflexive ↔ fst = snd)) ∧
    (∃ e, add_neighbour r fst fst = .error e ∧ (e = .indices_too_high ∨ e = .reflexive)) ∧
    (fst < K → snd < K → fst ≠ snd → ∃ r1, add_neighbour r fst snd = .ok r1) ∧
    Error.message .indices_too_high = some "Neighbour indices are too high.\n" ∧
    Error.message .reflexive = some "Reflexive neighbours are not allowed.\n" := by
  subst hn
  have out : ∀ a b, (a ≥ r.size ∨ b ≥ r.size) →
      add_neighbour r a b = .error .indices_too_high := by
    intro a b h
    unfold add_neighbour
    rw [if_neg (by omega), if_pos h]
  have refl : ∀ a, a < r.size → add_neighbour r a a = .error .reflexive := by
    intro a h
    unfold add_neighbour
    rw [if_neg (by omega), if_neg (by omega), if_pos rfl]
  have ok : ∀ a b, a < r.size → b < r.size → a ≠ b → ∃ r1, add_neighbour r a b = .ok r1 := by
    intro a b h1 h2 h3
    unfold add_neighbour
    rw [if_neg (by omega), if_neg (by omega), if_neg h3]
    by_cases he : (r.data.getD a []).elem b = true
    · rw [if_pos he]; exact ⟨_, rfl⟩
    · rw [if_neg he]; exact ⟨_, rfl⟩
  refine ⟨⟨?_, out fst snd⟩, ?_, ?_, ok fst snd, rfl, rfl⟩
  · intro h
    by_contra hc
    have h1 : fst < r.size := by omega
    have h2 : snd < r.size := by omega
    by_cases h3 : fst = snd
    · subst h3
      rw [refl fst h1] at h
      exact absurd (Except.error.inj h) (by decide)
    · obtain ⟨r1, e⟩ := ok fst snd h1 h2 h3
      rw [e] at h
      exact absurd h (by intro h4; cases h4)
  · intro h1 h2
    constructor
    · intro h
      by_contra h3
      obtain ⟨r1, e⟩ := ok fst snd h1 h2 h3
      rw [e] at h
      exact absurd h (by intro h4; cases h4)
    · intro h3
      subst h3
      exact refl fst h1
  · by_cases h1 : fst < r.size
    · exact ⟨_, refl fst h1, Or.inr rfl⟩
    · exact ⟨_, out fst fst (Or.inl (by omega)), Or.inl rfl⟩

/-- C17 on a registry over K = 3 regions: the edge (0, 3) is out of range. -/
theorem add_neighbour_failures_witness :
    add_neighbour ⟨3, [[1], [0], []]⟩ 0 3 = .error .indices_too_high :=
  (add_neighbour_failures ⟨3, [[1], [0], []]⟩ 3 (by decide) rfl 0 3).1.2 (by decide)

/-! ## C18: `are_neighbours` -/

/-- C18: in a registry over K > 0 regions `are_neighbours(fst,snd)` returns
false, and raises no error, when fst >= K or snd >= K, and otherwise returns
true if and only if snd is an element of the neighbour list of fst. -/
theorem are_neighbours_answer (r : NeighbourLists) (K : Nat) (hK : 0 < K)
    (hn : r.size = K) (fst snd : Nat) :
    ((fst ≥ K ∨ snd ≥ K) → are_neighbours r fst snd = .ok false) ∧
    (fst < K → snd < K → ∃ b, are_neighbours r fst snd = .ok b ∧
      (b = true ↔ snd ∈ r.data.getD fst [])) := by
  subst hn
  constructor
  · intro h
    unfold are_neighbours
    rw [if_neg (by omega), if_pos h]
  · intro h1 h2
    refine ⟨_, are_neighbours_inside r fst snd hK h1 h2, ?_⟩
    exact List.elem_iff

/-- C18 on the registry of the path graph 0 - 1 - 2: region 1 has the
neighbour 2, and region 3 does not exist. -/
theorem are_neighbours_answer_witness :
    are_neighbours ⟨3, [[1], [0, 2], [1]]⟩ 1 3 = .ok false :=
  (are_neighbours_answer ⟨3, [[1], [0, 2], [1]]⟩ 3 (by decide) rfl 1 3).1 (by decide)

/-! ## Printing and building: facts -/

theorem foldl_text {α : Type} (g : α → String) (l : List α) (out : String) :
    l.foldl (fun out x => out ++ g x) out = out ++ concat_all (l.map g) := by
  induction l generalizing out with
  | nil => simp [concat_all, String.append_empty]
  | cons x xs ih =>
    rw [List.foldl_cons, ih, List.map_cons, concat_all, String.append_assoc]

/-- The text of `print_formula` is the header followed by the clause lines. -/
theorem print_formula_eq (f : CNF) :
    print_formula f = "p cnf " ++ toString (get_num_of_variables f) ++ " "
      ++ toString (get_num_of_clauses f) ++ "\n" ++ concat_all (f.clauses.map clause_line) := by
  unfold print_formula
  have h : ∀ (out : String) (cl : Clause),
      (cl.literals.foldl (fun out var => out ++ toString var ++ " ") out) ++ "0\n"
        = out ++ clause_line cl := by
    intro out cl
    have h1 := foldl_text (fun var : Int => toString var ++ " ") cl.literals out
    simp only [← String.append_assoc] at h1
    rw [h1, clause_line, String.append_assoc]
  simp only [h]
  exact foldl_text clause_line f.clauses _

theorem bump_eq_mod (c n : Nat) (hc : c < 4294967296) : bump c n = (c + n) % 4294967296 := by
  induction n with
  | zero => exact (Nat.mod_eq_of_lt hc).symm
  | succ n ih =>
    show (bump c n + 1) % 4294967296 = _
    rw [ih]
    omega

/-- What a sequence of calls keeps and counts. -/
theorem run_calls_inv (calls : List Call) (g f : CNF) (h : run_calls g calls = .ok f) :
    f.num_of_regions = g.num_of_regions ∧ f.num_of_products = g.num_of_products ∧
    f.clauses.length = g.clauses.length + count_new_clauses calls ∧
    f.num_of_clauses = bump g.num_of_clauses (count_new_clauses calls) := by
  induction calls generalizing g with
  | nil =>
    simp only [run_calls, Except.ok.injEq] at h
    subst h
    exact ⟨rfl, rfl, rfl, rfl⟩
  | cons c rest ih =>
    cases c with
    | new_clause =>
      simp only [run_calls] at h
      obtain ⟨h1, h2, h3, h4⟩ := ih _ h
      have hc : count_new_clauses (Call.new_clause :: rest) = count_new_clauses rest + 1 := by
        simp [count_new_clauses]
      refine ⟨h1, h2, ?_, ?_⟩
      · rw [h3, hc]
        simp [create_new_clause, add_clause_to_formula]
        omega
      · rw [h4, hc]
        have hb : ∀ c n, bump ((c + 1) % 4294967296) n = bump c (n + 1) := by
          intro c n
          induction n with
          | zero => rfl
          | succ n ih2 => show (bump _ n + 1) % 4294967296 = _; rw [ih2]; rfl
        exact hb _ _
    | add_literal cl pos m r p =>
      simp only [run_calls] at h
      cases h0 : add_literal g cl pos m r p with
      | error e => rw [h0] at h; cases h
      | ok g1 =>
        rw [h0] at h
        obtain ⟨h1, h2, h3, h4⟩ := ih g1 h
        have hc : count_new_clauses (Call.add_literal cl pos m r p :: rest)
            = count_new_clauses rest := by
          simp [count_new_clauses]
        have hg : g1.num_of_regions = g.num_of_regions ∧
            g1.num_of_products = g.num_of_products ∧
            g1.clauses.length = g.clauses.length ∧ g1.num_of_clauses = g.num_of_clauses := by
          unfold add_literal at h0
          split at h0
          · cases h0
          · split at h0
            · cases h0
            · simp only [Except.ok.injEq] at h0
              subst h0
              exact ⟨rfl, rfl, by simp, rfl⟩
        rw [hc, h1, h2, h3, h4, hg.1, hg.2.1, hg.2.2.1, hg.2.2.2]
        exact ⟨rfl, rfl, rfl, rfl⟩

/-- A run of `create_new_clause` calls only. -/
theorem run_new_clauses (g : CNF) (n : Nat) :
    run_calls g (List.replicate n Call.new_clause)
      = .ok (append_clauses g (List.replicate n [])) := by
  have h : ∀ (m : Nat) (cs : List (List Int)),
      run_calls (append_clauses g cs) (List.replicate m Call.new_clause)
        = .ok (append_clauses g (cs ++ List.replicate m [])) := by
    intro m
    induction m with
    | zero => intro cs; simp [run_calls]
    | succ m ih =>
      intro cs
      rw [List.replicate_succ, run_calls, create_new_clause_append, ih]
      simp [List.replicate_succ]
  have h1 := h n []
  rw [append_clauses_nil] at h1
  simpa using h1

/-! ## C19: `print_formula` -/

/-- The length and the counter of a formula after `n` empty clauses were added. -/
theorem new_clauses_counts (g : CNF) (n : Nat) :
    (append_clauses g (List.replicate n [])).clauses.length = g.clauses.length + n ∧
    get_num_of_clauses (append_clauses g (List.replicate n [])) = bump g.num_of_clauses n := by
  constructor
  · show (g.clauses ++ List.map _ (List.replicate n ([] : List Int))).length = _
    rw [List.length_append, List.length_map, List.length_replicate]
  · show bump g.num_of_clauses (List.replicate n ([] : List Int)).length = _
    rw [List.length_replicate]

/-- C19, as stated, fails for the two numbers of the header, which are 32-bit
`unsigned` values: the empty formula with K = 2^31 and P = 2 is printed with the
header `p cnf 0 0` although 2*K*P = 2^33, and a formula built by 2^32 calls of
`create_new_clause` holds 2^32 clauses but a clause counter of 0. -/
theorem print_formula_header_wraps :
    (run_calls (empty_formula 2147483648 2) [] = .ok (empty_formula 2147483648 2) ∧
      print_formula (empty_formula 2147483648 2) = "p cnf 0 0\n" ∧
      2 * 2147483648 * 2 ≠ 0) ∧
    (∃ f, run_calls (empty_formula 1 1) (List.replicate 4294967296 Call.new_clause) = .ok f ∧
      f.clauses.length = 4294967296 ∧ get_num_of_clauses f = 0) := by
  have h := new_clauses_counts (empty_formula 1 1) 4294967296
  refine ⟨⟨rfl, by rfl, by decide⟩,
    append_clauses (empty_formula 1 1) (List.replicate 4294967296 []),
    run_new_clauses (empty_formula 1 1) 4294967296, ?_, ?_⟩
  · rw [h.1]; rfl
  · rw [h.2, bump_eq_mod _ _ (by decide)]; rfl

/-- C19, amended: for every formula built from the empty formula with
configuration (K,P) by `create_new_clause` and `add_literal_to_clause` calls,
`print_formula` emits the header line `p cnf V C` where V is 2*K*P modulo 2^32
and C is the number of clauses appended modulo 2^32 (so V = 2*K*P and C is the
number of clauses, which is the number of clause lines that follow, whenever
both are below 2^32), and then one line per clause in insertion order
consisting of the literals of the clause in insertion order, each followed by a
space, terminated by `0` and a newline; an empty clause renders as the line
`0`. -/
theorem print_formula_text (K P : Nat) (calls : List Call) (f : CNF)
    (hrun : run_calls (empty_formula K P) calls = .ok f) :
    print_formula f = "p cnf " ++ toString ((2 * K * P) % 4294967296) ++ " "
      ++ toString (f.clauses.length % 4294967296) ++ "\n"
      ++ concat_all (f.clauses.map clause_line) ∧
    f.clauses.length = count_new_clauses calls ∧
    (f.clauses.map clause_line).length = f.clauses.length ∧
    (∀ cl ∈ f.clauses, clause_line cl
      = concat_all (cl.literals.map fun var => toString var ++ " ") ++ "0\n") ∧
    clause_line ⟨[], K, P⟩ = "0\n" ∧
    (2 * K * P < 4294967296 → f.clauses.length < 4294967296 →
      print_formula f = "p cnf " ++ toString (2 * K * P) ++ " "
        ++ toString f.clauses.length ++ "\n" ++ concat_all (f.clauses.map clause_line)) := by
  obtain ⟨h1, h2, h3, h4⟩ := run_calls_inv calls (empty_formula K P) f hrun
  have hl : f.clauses.length = count_new_clauses calls := by
    rw [h3]; simp [empty_formula]
  have hv : get_num_of_variables f = (2 * K * P) % 4294967296 := by
    unfold get_num_of_variables
    rw [h1, h2]
    show (2 * P * K) % 4294967296 = _
    rw [Nat.mul_right_comm]
  have hc : get_num_of_clauses f = f.clauses.length % 4294967296 := by
    unfold get_num_of_clauses
    rw [h4, hl]
    show bump 0 _ = _
    rw [bump_eq_mod 0 _ (by decide), Nat.zero_add]
  have hp := print_formula_eq f
  rw [hv, hc] at hp
  refine ⟨hp, hl, by simp, fun _ _ => rfl, rfl, ?_⟩
  intro b1 b2
  rw [Nat.mod_eq_of_lt b1, Nat.mod_eq_of_lt b2] at hp
  exact hp

/-- The amended C19 on a formula with K = 3 and P = 2 built by creating a clause,
adding h(0,0) and NOT h(0,1) to it and creating a second clause. -/
theorem print_formula_text_witness :
    print_formula ⟨[⟨[1, -2], 3, 2⟩, ⟨[], 3, 2⟩], 2, 3, 2⟩ = "p cnf 12 2\n1 -2 0\n0\n" :=
  (print_formula_text 3 2
    [Call.new_clause, Call.add_literal 0 true MAIN_PRODUCT 0 0,
      Call.add_literal 0 false MAIN_PRODUCT 0 1, Call.new_clause]
    ⟨[⟨[1, -2], 3, 2⟩, ⟨[], 3, 2⟩], 2, 3, 2⟩ (by rfl)).2.2.2.2.2 (by decide) (by decide)

/-! ## C20: the range checks are never met by the generators -/

/-- C20: for K > 0 and P > 0, a registry over K regions and a formula configured
with that same (K,P), each of the eight generators called with
num_of_regions = K and num_of_products = P completes with a formula: no call of
`add_literal_to_clause` stops in its "Invalid region used." or "Invalid product
used." branch; the same holds for the eight calls made one after the other as
`main` makes them. -/
theorem generators_complete (f : CNF) (K P : Nat) (neighbours : NeighbourLists)
    (hK : 0 < K) (_hP : 0 < P)
    (hfK : f.num_of_regions = K) (hfP : f.num_of_products = P)
    (hn : neighbours.size = K) :
    (∃ g, all_regions_min_one_main_product f K P = .ok g) ∧
    (∃ g, all_regions_max_one_main_product f K P = .ok g) ∧
    (∃ g, all_regions_max_one_side_product f K P = .ok g) ∧
    (∃ g, main_side_products_different f K P = .ok g) ∧
    (∃ g, neighbour_regions_different_main_products f K P neighbours = .ok g) ∧
    (∃ g, all_products_at_least_once_main_products f K P = .ok g) ∧
    (∃ g, no_side_product_in_main_region f K P = .ok g) ∧
    (∃ g, main_region_main_product_as_side_product_elsewhere f K P = .ok g) ∧
    (∃ g, construct_clauses f K P neighbours = .ok g) := by
  have keep : ∀ (g : CNF) (cs : List (List Int)), g.num_of_regions = K →
      g.num_of_products = P →
      (append_clauses g cs).num_of_regions = K ∧ (append_clauses g cs).num_of_products = P :=
    fun _ _ h1 h2 => ⟨h1, h2⟩
  have s1 : ∀ g : CNF, g.num_of_regions = K → g.num_of_products = P →
      ∃ g1, all_regions_min_one_main_product g K P = .ok g1 ∧
        g1.num_of_regions = K ∧ g1.num_of_products = P :=
    fun g h1 h2 => ⟨_, min_one_main_run g K P hK h1 h2, keep g _ h1 h2⟩
  have s2 : ∀ g : CNF, g.num_of_regions = K → g.num_of_products = P →
      ∃ g1, all_regions_max_one_main_product g K P = .ok g1 ∧
        g1.num_of_regions = K ∧ g1.num_of_products = P :=
    fun g h1 h2 => ⟨_, max_one_main_run g K P hK h1 h2, keep g _ h1 h2⟩
  have s3 : ∀ g : CNF, g.num_of_regions = K → g.num_of_products = P →
      ∃ g1, all_regions_max_one_side_product g K P = .ok g1 ∧
        g1.num_of_regions = K ∧ g1.num_of_products = P :=
    fun g h1 h2 => ⟨_, max_one_side_run g K P hK h1 h2, keep g _ h1 h2⟩
  have s4 : ∀ g : CNF, g.num_of_regions = K → g.num_of_products = P →
      ∃ g1, main_side_products_different g K P = .ok g1 ∧
        g1.num_of_regions = K ∧ g1.num_of_products = P :=
    fun g h1 h2 => ⟨_, main_side_run g K P hK h1 h2, keep g _ h1 h2⟩
  have s5 : ∀ g : CNF, g.num_of_regions = K → g.num_of_products = P →
      ∃ g1, neighbour_regions_different_main_products g K P neighbours = .ok g1 ∧
        g1.num_of_regions = K ∧ g1.num_of_products = P :=
    fun g h1 h2 => ⟨_, neighbour_run g K P neighbours hK h1 h2 hn, keep g _ h1 h2⟩
  have s6 : ∀ g : CNF, g.num_of_regions = K → g.num_of_products = P →
      ∃ g1, all_products_at_least_once_main_products g K P = .ok g1 ∧
        g1.num_of_regions = K ∧ g1.num_of_products = P :=
    fun g h1 h2 => ⟨_, at_least_once_run g K P hK h1 h2, keep g _ h1 h2⟩
  have s7 : ∀ g : CNF, g.num_of_regions = K → g.num_of_products = P →
      ∃ g1, no_side_product_in_main_region g K P = .ok g1 ∧
        g1.num_of_regions = K ∧ g1.num_of_products = P :=
    fun g h1 h2 => ⟨_, no_side_run g K P hK h1 h2, keep g _ h1 h2⟩
  have s8 : ∀ g : CNF, g.num_of_regions = K → g.num_of_products = P →
      ∃ g1, main_region_main_product_as_side_product_elsewhere g K P = .ok g1 ∧
        g1.num_of_regions = K ∧ g1.num_of_products = P :=
    fun g h1 h2 => ⟨_, elsewhere_run g K P hK h1 h2, keep g _ h1 h2⟩
  refine ⟨(s1 f hfK hfP).imp fun _ h => h.1, (s2 f hfK hfP).imp fun _ h => h.1,
    (s3 f hfK hfP).imp fun _ h => h.1, (s4 f hfK hfP).imp fun _ h => h.1,
    (s5 f hfK hfP).imp fun _ h => h.1, (s6 f hfK hfP).imp fun _ h => h.1,
    (s7 f hfK hfP).imp fun _ h => h.1, (s8 f hfK hfP).imp fun _ h => h.1, ?_⟩
  obtain ⟨g1, e1, a1, b1⟩ := s1 f hfK hfP
  obtain ⟨g2, e2, a2, b2⟩ := s2 g1 a1 b1
  obtain ⟨g3, e3, a3, b3⟩ := s3 g2 a2 b2
  obtain ⟨g4, e4, a4, b4⟩ := s4 g3 a3 b3
  obtain ⟨g5, e5, a5, b5⟩ := s5 g4 a4 b4
  obtain ⟨g6, e6, a6, b6⟩ := s6 g5 a5 b5
  obtain ⟨g7, e7, a7, b7⟩ := s7 g6 a6 b6
  obtain ⟨g8, e8, _, _⟩ := s8 g7 a7 b7
  refine ⟨g8, ?_⟩
  simp only [construct_clauses, e1, e2, e3, e4, e5, e6, e7, e8, Except.bind]

/-- C20 at K = 3 regions, P = 2 products and the path graph 0 - 1 - 2. -/
theorem generators_complete_witness :
    ∃ g, construct_clauses (empty_formula 3 2) 3 2 ⟨3, [[1], [0, 2], [1]]⟩ = .ok g :=
  (generators_complete (empty_formula 3 2) 3 2 ⟨3, [[1], [0, 2], [1]]⟩ (by decide) (by decide)
    rfl rfl rfl).2.2.2.2.2.2.2.2

/-! ## C21: the meaning of the neighbour clauses -/

/-- Outside a registry over `K > 0` regions `are_neighbours` answers false. -/
theorem are_neighbours_outside (n : NeighbourLists) (fst snd : Nat) (hn : 0 < n.size)
    (h : fst ≥ n.size ∨ snd ≥ n.size) : are_neighbours n fst snd = .ok false := by
  unfold are_neighbours
  rw [if_neg (by omega), if_pos h]

/-- C21, as stated, fails: for K = 3 regions, P = 2^31 products and the registry
with the one edge 0 - 2 (symmetric, irreflexive), the number of h(2,0),
P*2+0+1 = 2^32+1, wraps to 1, the number of h(0,0), so the clause for the
regions 0 and 2 and product 0 is -1 -1; the assignment that makes exactly the
variable 1 true gives no two neighbouring regions a common main product and
still violates that clause. -/
theorem neighbour_meaning_wraps :
    ∃ (blk : List (List Int)) (a : Nat → Bool),
      neighbour_regions_different_main_products (empty_formula 3 2147483648) 3 2147483648
          ⟨3, [[2], [], [0]]⟩
        = .ok (append_clauses (empty_formula 3 2147483648) blk) ∧
      (∀ x y, are_neighbours ⟨3, [[2], [], [0]]⟩ x y = are_neighbours ⟨3, [[2], [], [0]]⟩ y x) ∧
      (∀ x, are_neighbours ⟨3, [[2], [], [0]]⟩ x x = .ok false) ∧
      ¬ ((∀ ls ∈ blk, literals_hold a ls = true) ↔
          ¬ ∃ x y p, x < 3 ∧ y < 3 ∧ p < 2147483648 ∧
            are_neighbours ⟨3, [[2], [], [0]]⟩ x y = .ok true ∧
            a (h_var 2147483648 x p) = true ∧ a (h_var 2147483648 y p) = true) := by
  have irr : ∀ x, are_neighbours ⟨3, [[2], [], [0]]⟩ x x = .ok false := by
    intro x
    by_cases hx : x < 3
    · interval_cases x <;> rfl
    · exact are_neighbours_outside _ x x (by decide) (Or.inl (by simp only; omega))
  have sym : ∀ x y,
      are_neighbours ⟨3, [[2], [], [0]]⟩ x y = are_neighbours ⟨3, [[2], [], [0]]⟩ y x := by
    intro x y
    by_cases hx : x < 3
    · by_cases hy : y < 3
      · interval_cases x <;> interval_cases y <;> rfl
      · rw [are_neighbours_outside _ x y (by decide) (Or.inr (by simp only; omega)),
          are_neighbours_outside _ y x (by decide) (Or.inl (by simp only; omega))]
    · rw [are_neighbours_outside _ x y (by decide) (Or.inl (by simp only; omega)),
        are_neighbours_outside _ y x (by decide) (Or.inr (by simp only; omega))]
  refine ⟨_, fun n => n == 1,
    neighbour_run (empty_formula 3 2147483648) 3 2147483648 ⟨3, [[2], [], [0]]⟩ (by decide)
      rfl rfl rfl, sym, irr, ?_⟩
  intro h
  have hr : ¬ ∃ x y p, x < 3 ∧ y < 3 ∧ p < 2147483648 ∧
      are_neighbours ⟨3, [[2], [], [0]]⟩ x y = .ok true ∧
      (fun n => n == 1) (h_var 2147483648 x p) = true ∧
      (fun n => n == 1) (h_var 2147483648 y p) = true := by
    rintro ⟨x, y, p, _, _, _, hadj, h1, h2⟩
    simp only [h_var, beq_iff_eq] at h1 h2
    have hx : x = 0 := by omega
    have hy : y = 0 := by omega
    subst hx hy
    rw [irr 0] at hadj
    exact absurd (Except.ok.inj hadj) (by decide)
  have hl := h.2 hr [-1, -1] (by
    simp only [List.mem_map]
    exact ⟨(0, 2, 0), (mem_neighbour_triples _ _ _ _).2 ⟨by decide, by decide, by decide, rfl⟩,
      by decide⟩)
  exact absurd hl (by decide)

/-- C21, amended: for K > 0 and P > 0 with 2*K*P <= 2^31 - 1, every registry
over K regions that is symmetric and irreflexive, and every truth assignment,
the assignment satisfies all clauses appended by
`neighbour_regions_different_main_products` if and only if there are no regions
a, b < K with `are_neighbours(a,b)` true and a product p < P such that h(a,p)
and h(b,p) are both true. -/
theorem neighbour_meaning (f : CNF) (K P : Nat) (neighbours : NeighbourLists)
    (hK : 0 < K) (_hP : 0 < P)
    (hfK : f.num_of_regions = K) (hfP : f.num_of_products = P)
    (hn : neighbours.size = K)
    (hsym : ∀ x y, are_neighbours neighbours x y = are_neighbours neighbours y x)
    (hirr : ∀ x, are_neighbours neighbours x x = .ok false)
    (hb : 2 * K * P ≤ 2147483647) :
    ∃ blk : List (List Int),
      neighbour_regions_different_main_products f K P neighbours
        = .ok (append_clauses f blk) ∧
      ∀ a : Nat → Bool,
        (∀ ls ∈ blk, literals_hold a ls = true) ↔
          ¬ ∃ x y p, x < K ∧ y < K ∧ p < P ∧ are_neighbours neighbours x y = .ok true ∧
            a (h_var P x p) = true ∧ a (h_var P y p) = true := by
  refine ⟨_, neighbour_run f K P neighbours hK hfK hfP hn, ?_⟩
  intro a
  have val : ∀ k p, k < K → p < P →
      literal_value K P false MAIN_PRODUCT k p = -((h_var P k p : Nat) : Int) := by
    intro k p hk hp
    rw [literal_value_eq K P false MAIN_PRODUCT k p hb hk hp]
    simp [MAIN_PRODUCT, h_var]
  have pair : ∀ x y p, x < K → y < K → p < P →
      (literals_hold a [literal_value K P false MAIN_PRODUCT x p,
          literal_value K P false MAIN_PRODUCT y p] = true ↔
        ¬ (a (h_var P x p) = true ∧ a (h_var P y p) = true)) := by
    intro x y p hx hy hp
    rw [val x p hx hp, val y p hy hp]
    simp only [literals_hold, List.any_cons, List.any_nil, Bool.or_false, Bool.or_eq_true,
      literal_holds_neg a _ (show 0 < h_var P x p by simp [h_var]),
      literal_holds_neg a _ (show 0 < h_var P y p by simp [h_var])]
    cases a (h_var P x p) <;> cases a (h_var P y p) <;> simp
  constructor
  · rintro h ⟨x, y, p, hx, hy, hp, hadj, a1, a2⟩
    have hne : x ≠ y := by
      rintro rfl
      rw [hirr x] at hadj
      exact absurd (Except.ok.inj hadj) (by decide)
    rcases Nat.lt_or_gt_of_ne hne with hlt | hgt
    · have := h _ (List.mem_map.2 ⟨(x, y, p),
        (mem_neighbour_triples K P neighbours _).2 ⟨hlt, hy, hp, hadj⟩, rfl⟩)
      exact ((pair x y p hx hy hp).1 this) ⟨a1, a2⟩
    · have := h _ (List.mem_map.2 ⟨(y, x, p),
        (mem_neighbour_triples K P neighbours _).2 ⟨hgt, hx, hp, (hsym y x).trans hadj⟩, rfl⟩)
      exact ((pair y x p hy hx hp).1 this) ⟨a2, a1⟩
  · intro h ls hls
    obtain ⟨t, ht, rfl⟩ := List.mem_map.1 hls
    obtain ⟨c1, c2, c3, c4⟩ := (mem_neighbour_triples K P neighbours t).1 ht
    refine (pair t.1 t.2.1 t.2.2 (by omega) c2 c3).2 ?_
    rintro ⟨a1, a2⟩
    exact h ⟨t.1, t.2.1, t.2.2, by omega, c2, c3, c4, a1, a2⟩

/-- The amended C21 at K = 3 regions, P = 2 products and the path graph
0 - 1 - 2. -/
theorem neighbour_meaning_witness :
    ∃ blk : List (List Int),
      neighbour_regions_different_main_products (empty_formula 3 2) 3 2 ⟨3, [[1], [0, 2], [1]]⟩
        = .ok (append_clauses (empty_formula 3 2) blk) ∧
      ∀ a : Nat → Bool,
        (∀ ls ∈ blk, literals_hold a ls = true) ↔
          ¬ ∃ x y p, x < 3 ∧ y < 3 ∧ p < 2 ∧
            are_neighbours ⟨3, [[1], [0, 2], [1]]⟩ x y = .ok true ∧
            a (h_var 2 x p) = true ∧ a (h_var 2 y p) = true :=
  neighbour_meaning (empty_formula 3 2) 3 2 ⟨3, [[1], [0, 2], [1]]⟩ (by decide) (by decide)
    rfl rfl rfl
    (by
      intro x y
      by_cases hx : x < 3
      · by_cases hy : y < 3
        · interval_cases x <;> interval_cases y <;> rfl
        · rw [are_neighbours_outside _ x y (by decide) (Or.inr (by simp only; omega)),
            are_neighbours_outside _ y x (by decide) (Or.inl (by simp only; omega))]
      · rw [are_neighbours_outside _ x y (by decide) (Or.inl (by simp only; omega)),
          are_neighbours_outside _ y x (by decide) (Or.inr (by simp only; omega))])
    (by
      intro x
      by_cases hx : x < 3
      · interval_cases x <;> rfl
      · exact are_neighbours_outside _ x x (by decide) (Or.inl (by simp only; omega)))
    (by decide)

/-! ## C22: what a generator leaves and what it adds -/

/-- A function that appends the same block of clauses to every formula
configured with (K,P) keeps the dimensions and the clauses present, adds what
it adds to the empty formula, and adds it again when run again. -/
theorem frame_of_run (g : CNF → Except Error CNF) (K P : Nat) (blk : List (List Int))
    (hg : ∀ g0 : CNF, g0.num_of_regions = K → g0.num_of_products = P →
      g g0 = .ok (append_clauses g0 blk))
    (f : CNF) (hfK : f.num_of_regions = K) (hfP : f.num_of_products = P) :
    ∃ e1 f1 f2 : CNF,
      g (empty_formula K P) = .ok e1 ∧
      g f = .ok f1 ∧ f1.num_of_regions = K ∧ f1.num_of_products = P ∧
      f1.clauses = f.clauses ++ e1.clauses ∧
      g f1 = .ok f2 ∧ f2.num_of_regions = K ∧ f2.num_of_products = P ∧
      f2.clauses = f.clauses ++ e1.clauses ++ e1.clauses ∧
      (f.num_of_clauses < 4294967296 →
        get_num_of_clauses f1 = (get_num_of_clauses f + e1.clauses.length) % 4294967296 ∧
        get_num_of_clauses f2
          = (get_num_of_clauses f + 2 * e1.clauses.length) % 4294967296) ∧
      (get_num_of_clauses f + 2 * e1.clauses.length < 4294967296 →
        get_num_of_clauses f2 = get_num_of_clauses f + 2 * e1.clauses.length) := by
  subst hfK hfP
  have hl : (append_clauses (empty_formula f.num_of_regions f.num_of_products) blk).clauses.length
      = blk.length := by
    simp [append_clauses, empty_formula]
  have hc : (append_clauses (empty_formula f.num_of_regions f.num_of_products) blk).clauses
      = blk.map (fun ls => (⟨ls, f.num_of_regions, f.num_of_products⟩ : Clause)) := by
    simp [append_clauses, empty_formula]
  have h2 : get_num_of_clauses (append_clauses (append_clauses f blk) blk)
      = bump f.num_of_clauses (2 * blk.length) := by
    show bump (bump f.num_of_clauses blk.length) blk.length = _
    rw [bump_add, Nat.two_mul]
  refine ⟨_, _, _, hg _ rfl rfl, hg f rfl rfl, rfl, rfl, ?_, hg _ rfl rfl, rfl, rfl, ?_, ?_, ?_⟩
  · rw [hc]; rfl
  · rw [hc]
    show (f.clauses ++ _) ++ _ = _
    rfl
  · intro hlt
    rw [hl, h2]
    exact ⟨bump_eq_mod _ _ hlt, bump_eq_mod _ _ hlt⟩
  · intro hlt
    rw [hl] at hlt ⊢
    have hlt2 : f.num_of_clauses < 4294967296 := by
      unfold get_num_of_clauses at hlt; omega
    rw [h2, bump_eq_mod _ _ hlt2]
    unfold get_num_of_clauses at hlt ⊢
    exact Nat.mod_eq_of_lt hlt

theorem get_num_of_clauses_eq (g : CNF) : get_num_of_clauses g = g.num_of_clauses := rfl

/-- C22, as stated, fails in its last part: the clause counter is a 32-bit
`unsigned`. On the formula built by 2^32 - 1 calls of `create_new_clause` (K = 1,
P = 1) the generator `no_side_product_in_main_region`, which appends one clause
to the empty formula, leaves after two runs a clause count of 1, not of
2^32 - 1 + 2. -/
theorem clause_count_wraps :
    ∃ F e1 f1 f2 : CNF,
      run_calls (empty_formula 1 1) (List.replicate 4294967295 Call.new_clause) = .ok F ∧
      F.num_of_regions = 1 ∧ F.num_of_products = 1 ∧
      no_side_product_in_main_region (empty_formula 1 1) 1 1 = .ok e1 ∧
      e1.clauses.length = 1 ∧
      no_side_product_in_main_region F 1 1 = .ok f1 ∧
      no_side_product_in_main_region f1 1 1 = .ok f2 ∧
      get_num_of_clauses F = 4294967295 ∧ get_num_of_clauses f2 = 1 ∧
      get_num_of_clauses f2 ≠ get_num_of_clauses F + 2 * e1.clauses.length := by
  have hF := new_clauses_counts (empty_formula 1 1) 4294967295
  have hcF : get_num_of_clauses
      (append_clauses (empty_formula 1 1) (List.replicate 4294967295 [])) = 4294967295 := by
    rw [hF.2, bump_eq_mod _ _ (by decide)]; rfl
  obtain ⟨e1, f1, f2, r1, r2, _, _, _, r3, _, _, _, r4, _⟩ :=
    frame_of_run (fun g => no_side_product_in_main_region g 1 1) 1 1 _
      (fun g0 h1 h2 => no_side_run g0 1 1 (by decide) h1 h2)
      (append_clauses (empty_formula 1 1) (List.replicate 4294967295 [])) rfl rfl
  have he : e1.clauses.length = 1 := by
    have h0 := no_side_run (empty_formula 1 1) 1 1 (by decide) rfl rfl
    rw [r1] at h0
    rw [Except.ok.inj h0]
    rfl
  have h2 : get_num_of_clauses f2 = 1 := by
    have h5 : (append_clauses (empty_formula 1 1)
        (List.replicate 4294967295 [])).num_of_clauses = 4294967295 := by
      rw [← get_num_of_clauses_eq]; exact hcF
    have h3 := (r4 (by rw [h5]; decide)).2
    rw [h3, hcF, he]
  refine ⟨_, e1, f1, f2, run_new_clauses (empty_formula 1 1) 4294967295, rfl, rfl, r1, he, r2,
    r3, hcF, h2, ?_⟩
  rw [h2, hcF, he]
  decide

/-- C22, amended: for each of the eight generators g of `main`, K > 0, P > 0, a
registry over K regions and every formula F configured with (K,P): running g on
F leaves the region and product counts of F unchanged, leaves the existing
clauses and their literals unchanged and in the same order, and makes the clause
sequence of F the old sequence followed by exactly the clauses g appends to an
empty formula with the same (K,P); running g twice appends that same block
twice and increases clause_count by twice its size modulo 2^32, so by exactly
twice its size when the new count is below 2^32. -/
theorem generator_frame (f : CNF) (K P : Nat) (neighbours : NeighbourLists)
    (hK : 0 < K) (_hP : 0 < P)
    (hfK : f.num_of_regions = K) (hfP : f.num_of_products = P)
    (hn : neighbours.size = K) :
    ∀ g ∈ generator_calls K P neighbours, ∃ e1 f1 f2 : CNF,
      g (empty_formula K P) = .ok e1 ∧
      g f = .ok f1 ∧ f1.num_of_regions = K ∧ f1.num_of_products = P ∧
      f1.clauses = f.clauses ++ e1.clauses ∧
      g f1 = .ok f2 ∧ f2.num_of_regions = K ∧ f2.num_of_products = P ∧
      f2.clauses = f.clauses ++ e1.clauses ++ e1.clauses ∧
      (f.num_of_clauses < 4294967296 →
        get_num_of_clauses f1 = (get_num_of_clauses f + e1.clauses.length) % 4294967296 ∧
        get_num_of_clauses f2
          = (get_num_of_clauses f + 2 * e1.clauses.length) % 4294967296) ∧
      (get_num_of_clauses f + 2 * e1.clauses.length < 4294967296 →
        get_num_of_clauses f2 = get_num_of_clauses f + 2 * e1.clauses.length) := by
  intro g hg
  simp only [generator_calls, List.mem_cons, List.mem_singleton, List.not_mem_nil,
    or_false] at hg
  rcases hg with rfl | rfl | rfl | rfl | rfl | rfl | rfl | rfl
  · exact frame_of_run _ K P _ (fun g0 h1 h2 => min_one_main_run g0 K P hK h1 h2) f hfK hfP
  · exact frame_of_run _ K P _ (fun g0 h1 h2 => max_one_main_run g0 K P hK h1 h2) f hfK hfP
  · exact frame_of_run _ K P _ (fun g0 h1 h2 => max_one_side_run g0 K P hK h1 h2) f hfK hfP
  · exact frame_of_run _ K P _ (fun g0 h1 h2 => main_side_run g0 K P hK h1 h2) f hfK hfP
  · exact frame_of_run _ K P _ (fun g0 h1 h2 => neighbour_run g0 K P neighbours hK h1 h2 hn)
      f hfK hfP
  · exact frame_of_run _ K P _ (fun g0 h1 h2 => at_least_once_run g0 K P hK h1 h2) f hfK hfP
  · exact frame_of_run _ K P _ (fun g0 h1 h2 => no_side_run g0 K P hK h1 h2) f hfK hfP
  · exact frame_of_run _ K P _ (fun g0 h1 h2 => elsewhere_run g0 K P hK h1 h2) f hfK hfP

/-- The amended C22 for `no_side_product_in_main_region` at K = 3 regions,
P = 2 products, the path graph 0 - 1 - 2 and a formula that holds the clause
1 2. -/
theorem generator_frame_witness :
    ∃ e1 f1 f2 : CNF,
      no_side_product_in_main_region (empty_formula 3 2) 3 2 = .ok e1 ∧
      no_side_product_in_main_region ⟨[⟨[1, 2], 3, 2⟩], 1, 3, 2⟩ 3 2 = .ok f1 ∧
      f1.num_of_regions = 3 ∧ f1.num_of_products = 2 ∧
      f1.clauses = [⟨[1, 2], 3, 2⟩] ++ e1.clauses ∧
      no_side_product_in_main_region f1 3 2 = .ok f2 ∧
      f2.num_of_regions = 3 ∧ f2.num_of_products = 2 ∧
      f2.clauses = [⟨[1, 2], 3, 2⟩] ++ e1.clauses ++ e1.clauses ∧
      ((1 : Nat) < 4294967296 →
        get_num_of_clauses f1 = (1 + e1.clauses.length) % 4294967296 ∧
        get_num_of_clauses f2 = (1 + 2 * e1.clauses.length) % 4294967296) ∧
      (1 + 2 * e1.clauses.length < 4294967296 →
        get_num_of_clauses f2 = 1 + 2 * e1.clauses.length) :=
  generator_frame ⟨[⟨[1, 2], 3, 2⟩], 1, 3, 2⟩ 3 2 ⟨3, [[1], [0, 2], [1]]⟩ (by decide)
    (by decide) rfl rfl rfl (fun f => no_side_product_in_main_region f 3 2)
    (by simp [generator_calls])

/-! ## C23: the stored literal without wrap-around -/

/-- C23: whenever 2*K*P <= 2^31 - 1, for region < K and product < P the 32-bit
computation of `add_literal_to_clause` does not wrap (every intermediate value
is at most 2*K*P, so below 2^31, and the variable number is the exact value of
P*region+product+1, plus K*P for a side-product variable), and the literal it
stores is not 0, has an absolute value in [1, 2*K*P], in [1, K*P] for a
main-product variable and in [K*P+1, 2*K*P] for a side-product variable, and is
positive if and only if is_positive is true. -/
theorem stored_literal_range (c : Clause) (K P : Nat)
    (hcK : c.num_of_regions = K) (hcP : c.num_of_products = P)
    (hb : 2 * K * P ≤ 2147483647) (is_positive is_main_product : Bool)
    (region product : Nat) (hr : region < K) (hp : product < P) :
    (P * region + product + 1 ≤ K * P ∧ P * K = K * P ∧
      P * region + product + 1 + K * P ≤ 2 * K * P ∧ 2 * K * P < 2147483648) ∧
    variable_number K P is_main_product region product
      = (if is_main_product then ((P * region + product + 1 : Nat) : Int)
         else ((P * region + product + 1 + K * P : Nat) : Int)) ∧
    ∃ l : Int,
      add_literal_to_clause c is_positive is_main_product region product
        = .ok { c with literals := c.literals ++ [l] } ∧
      l ≠ 0 ∧ 1 ≤ l.natAbs ∧ l.natAbs ≤ 2 * K * P ∧
      (is_main_product = true → l.natAbs ≤ K * P) ∧
      (is_main_product = false → K * P + 1 ≤ l.natAbs) ∧
      (0 < l ↔ is_positive = true) := by
  subst hcK hcP
  have b1 := index_le _ _ region product hr hp
  have h2 : 2 * c.num_of_regions * c.num_of_products
      = 2 * (c.num_of_regions * c.num_of_products) := by ring
  refine ⟨⟨b1, Nat.mul_comm _ _, by omega, by omega⟩,
    variable_number_eq _ _ is_main_product region product hb hr hp, ?_⟩
  refine ⟨literal_value c.num_of_regions c.num_of_products is_positive is_main_product
    region product, ?_, ?_⟩
  · unfold add_literal_to_clause
    simp only [ge_iff_le]
    rw [if_neg (by omega), if_neg (by omega)]
  · rw [literal_value_eq _ _ is_positive is_main_product region product hb hr hp]
    cases is_positive <;> cases is_main_product <;>
      simp only [if_true, Bool.false_eq_true, if_false] <;>
      refine ⟨?_, ?_, ?_, ?_, ?_, ?_⟩ <;>
      first
        | omega
        | (intro h; first | omega | exact absurd h (by decide))
        | (constructor <;> intro h <;> first | omega | exact absurd h (by decide) | trivial)

/-- C23 on a clause configured with K = 3 and P = 2: the negative side-product
literal of region 2 and product 1 is stored as -12. -/
theorem stored_literal_range_witness :
    ∃ l : Int,
      add_literal_to_clause ⟨[], 3, 2⟩ false SIDE_PRODUCT 2 1 = .ok ⟨[] ++ [l], 3, 2⟩ ∧
      l ≠ 0 ∧ 1 ≤ l.natAbs ∧ l.natAbs ≤ 2 * 3 * 2 ∧
      (SIDE_PRODUCT = true → l.natAbs ≤ 3 * 2) ∧
      (SIDE_PRODUCT = false → 3 * 2 + 1 ≤ l.natAbs) ∧
      (0 < l ↔ false = true) :=
  (stored_literal_range ⟨[], 3, 2⟩ 3 2 rfl rfl (by decide) false SIDE_PRODUCT 2 1 (by decide)
    (by decide)).2.2

end SMT2
